import Mathlib

/-!
# Terrain generator: mirrored heightmap sampling and chunk meshing

A shallow embedding of the terrain functions of `texture_mapping_method/main.cpp`.

* C++ `int` values are unbounded `Int`s; `%` on `int` is the truncating
  `Int.tmod`, `std::abs` is `Int.natAbs`. The chunk dimensions `chunkWidth`,
  `chunkHeight` are natural numbers. Where overflow matters the sampler is
  also given on 32-bit `int`s (`get_mirrored_coord32`, `get_smooth_height32`),
  every result wrapped into the `int` range.
* C++ `float` values are exact rationals (`ℚ`); where a NaN matters the
  normals are also given in `FloatX`, exact values with the IEEE specials.
* `std::vector` buffers are `List`s; every subscript read is fallible
  (`Option`), so an out-of-bounds access shows up as `none`.
* `rand()` is a sequence `rand : Nat → Nat` of draws together with the number
  of calls made so far.
* Library and GL calls are explicit: `(int)f` truncates toward zero, `fmod` is
  `x - trunc(x / y) * y`, `glm::normalize` is a parameter of `generate_normals`
  and `v * inversesqrt(dot(v, v))` in `FloatX`, and `glGenVertexArrays` is a
  sequence `genVAO : Nat → Nat` of names.
-/

namespace Terrain

/-! ## Global configuration -/

/-- The global `float meshHeight = 160.0f`. -/
def meshHeight : ℚ := 160

/-- The global `float WATER_HEIGHT = 11.2f`. -/
def WATER_HEIGHT : ℚ := 11.2

/-- The decoded heightmap: the globals `hmWidth`, `hmHeight` and the
`unsigned char` buffer `heightMapData` (one byte per sample). A null
`heightMapData` is `none : Option Heightmap`. -/
structure Heightmap where
  hmWidth : Int
  hmHeight : Int
  data : List (Fin 256)

/-- A heightmap as `stbi_load` delivers it: positive dimensions and
`hmWidth * hmHeight` samples. -/
def Heightmap.WellFormed (hm : Heightmap) : Prop :=
  0 < hm.hmWidth ∧ 0 < hm.hmHeight ∧ (hm.data.length : Int) = hm.hmWidth * hm.hmHeight

instance Heightmap.decWellFormed (hm : Heightmap) : Decidable hm.WellFormed := by
  unfold Heightmap.WellFormed; infer_instance

/-- A subscript read `buf[i]` with an `int` index: `none` when out of bounds. -/
def readAt {α : Type} (buf : List α) (i : Int) : Option α :=
  if 0 ≤ i then buf[i.toNat]? else none

/-! ## Heightmap sampler -/

/-- Embedding of `int get_mirrored_coord(int coord, int maxVal)`. -/
def get_mirrored_coord (coord maxVal : Int) : Int :=
  let cycle := 2 * maxVal
  let val := Int.tmod (coord.natAbs : Int) cycle
  if val ≥ maxVal then cycle - 1 - val else val

/-- Embedding of `float get_smooth_height(int worldX, int worldY)`: the two
nested loops over `oy, ox ∈ {-1, 0, 1}` carry `(total, count)`. -/
def get_smooth_height (hm : Heightmap) (worldX worldY : Int) : Option ℚ :=
  let offsets : List Int := [-1, 0, 1]
  let acc := offsets.foldlM (fun (acc : ℚ × Nat) oy =>
    offsets.foldlM (fun (acc : ℚ × Nat) ox =>
      let sx := get_mirrored_coord (worldX + ox) hm.hmWidth
      let sy := get_mirrored_coord (worldY + oy) hm.hmHeight
      (readAt hm.data (sy * hm.hmWidth + sx)).map
        (fun b => (acc.1 + (b.val : ℚ) / 255, acc.2 + 1))) acc) ((0 : ℚ), 0)
  acc.map (fun r => r.1 / (r.2 : ℚ))

/-- Value of the heightmap sample designated by the mirrored wrap of a world
cell, divided by 255 (specification side of `get_smooth_height`). -/
def wrapped_sample (hm : Heightmap) (wx wy : Int) : ℚ :=
  let sx := get_mirrored_coord wx hm.hmWidth
  let sy := get_mirrored_coord wy hm.hmHeight
  (((hm.data.getD (sy * hm.hmWidth + sx).toNat 0).val : Nat) : ℚ) / 255

/-- Arithmetic mean of the nine wrapped samples around a world cell
(specification side of `get_smooth_height`). -/
def box_mean (hm : Heightmap) (wx wy : Int) : ℚ :=
  (wrapped_sample hm (wx - 1) (wy - 1) + wrapped_sample hm wx (wy - 1)
    + wrapped_sample hm (wx + 1) (wy - 1)
    + wrapped_sample hm (wx - 1) wy + wrapped_sample hm wx wy
    + wrapped_sample hm (wx + 1) wy
    + wrapped_sample hm (wx - 1) (wy + 1) + wrapped_sample hm wx (wy + 1)
    + wrapped_sample hm (wx + 1) (wy + 1)) / 9

/-- The sample the noise map holds for a world cell (specification side of
`generate_noise_map`): `0` without a heightmap, the box mean otherwise. -/
def noise_value (heightMapData : Option Heightmap) (wx wy : Int) : ℚ :=
  match heightMapData with
  | none => 0
  | some hm => box_mean hm wx wy

/-! ## Chunk mesh generator -/

/-- Embedding of `generate_noise_map(xOffset, yOffset)`; the globals
`heightMapData`, `chunkWidth`, `chunkHeight` are explicit arguments. -/
def generate_noise_map (heightMapData : Option Heightmap) (chunkWidth chunkHeight : Nat)
    (xOffset yOffset : Int) : Option (List ℚ) :=
  match heightMapData with
  | none => some (List.replicate (chunkWidth * (chunkHeight + 1)) 0)
  | some hm =>
    (List.range (chunkHeight + 1)).foldlM (fun noiseValues (y : Nat) =>
      (List.range chunkWidth).foldlM (fun noiseValues (x : Nat) =>
        let wx : Int := (x : Int) + xOffset * ((chunkWidth : Int) - 1)
        let wy : Int := (y : Int) + yOffset * ((chunkHeight : Int) - 1)
        (get_smooth_height hm wx wy).map (fun s => noiseValues ++ [s])) noiseValues) []

/-- The height remap inside the loop body of `generate_vertices`:
`rawVal = max(0, rawVal - 0.08); h = pow(rawVal, 2) * meshHeight`. -/
def vertex_height (rawVal : ℚ) : ℚ :=
  let rawVal := max 0 (rawVal - 0.08)
  rawVal ^ 2 * meshHeight

/-- Embedding of `generate_vertices(noise_map)`: five floats
`x, h, y, u, v` per grid cell. -/
def generate_vertices (chunkWidth chunkHeight : Nat) (noise_map : List ℚ) :
    Option (List ℚ) :=
  (List.range (chunkHeight + 1)).foldlM (fun v (y : Nat) =>
    (List.range chunkWidth).foldlM (fun v (x : Nat) =>
      (noise_map[x + y * chunkWidth]?).map (fun rawVal =>
        v ++ [(x : ℚ), vertex_height rawVal, (y : ℚ),
              (x : ℚ) / (chunkWidth : ℚ), (y : ℚ) / (chunkHeight : ℚ)])) v) []

/-- Embedding of `generate_indices()`: two triangles per grid quad. -/
def generate_indices (chunkWidth chunkHeight : Nat) : List Int :=
  (List.range (chunkHeight - 1)).foldl (fun indices (y : Nat) =>
    (List.range (chunkWidth - 1)).foldl (fun indices (x : Nat) =>
      let pos : Int := (x : Int) + (y : Int) * (chunkWidth : Int)
      indices ++ [pos, pos + chunkWidth, pos + chunkWidth + 1,
                  pos, pos + chunkWidth + 1, pos + 1]) indices) []

/-- A `glm::vec3` with exact components. -/
structure Vec3 where
  x : ℚ
  y : ℚ
  z : ℚ
deriving DecidableEq

/-- Componentwise `glm::vec3` sum. -/
def Vec3.add (a b : Vec3) : Vec3 := ⟨a.x + b.x, a.y + b.y, a.z + b.z⟩

/-- Componentwise `glm::vec3` difference. -/
def Vec3.sub (a b : Vec3) : Vec3 := ⟨a.x - b.x, a.y - b.y, a.z - b.z⟩

/-- The cross product as `glm::cross` computes it. -/
def Vec3.cross (a b : Vec3) : Vec3 :=
  ⟨a.y * b.z - b.y * a.z, a.z * b.x - b.z * a.x, a.x * b.y - b.x * a.y⟩

/-- Position of vertex `i` in the stride-5 vertex buffer:
`vec3(vertices[i*5], vertices[i*5+1], vertices[i*5+2])`. -/
def read_vertex (vertices : List ℚ) (i : Int) : Option Vec3 := do
  let x ← readAt vertices (i * 5)
  let y ← readAt vertices (i * 5 + 1)
  let z ← readAt vertices (i * 5 + 2)
  pure ⟨x, y, z⟩

/-- Face normal of one triangle in `generate_normals`:
`glm::cross(v2 - v1, v3 - v1)`. -/
def face_normal (vertices : List ℚ) (i1 i2 i3 : Int) : Option Vec3 := do
  let v1 ← read_vertex vertices i1
  let v2 ← read_vertex vertices i2
  let v3 ← read_vertex vertices i3
  pure (Vec3.cross (v2.sub v1) (v3.sub v1))

/-- The update `tempNormals[i] += norm`. -/
def accumulate (tempNormals : List Vec3) (i : Int) (norm : Vec3) : Option (List Vec3) :=
  (readAt tempNormals i).map (fun old => tempNormals.set i.toNat (old.add norm))

/-- Body of the triangle loop of `generate_normals` for the triangle starting
at `indices[3*k]`. -/
def normals_step (indices : List Int) (vertices : List ℚ) (tempNormals : List Vec3)
    (k : Nat) : Option (List Vec3) := do
  let i1 ← indices[3 * k]?
  let i2 ← indices[3 * k + 1]?
  let i3 ← indices[3 * k + 2]?
  let norm ← face_normal vertices i1 i2 i3
  let t ← accumulate tempNormals i1 norm
  let t ← accumulate t i2 norm
  accumulate t i3 norm

/-- Embedding of `generate_normals(indices, vertices)`. `glm::normalize` is
library code (it takes a square root) and is the parameter `normalize`. -/
def generate_normals (normalize : Vec3 → Vec3) (indices : List Int) (vertices : List ℚ) :
    Option (List ℚ) := do
  let tempNormals := List.replicate (vertices.length / 5) (⟨0, 0, 0⟩ : Vec3)
  let tempNormals ← (List.range ((indices.length + 2) / 3)).foldlM
    (normals_step indices vertices) tempNormals
  pure (tempNormals.foldl (fun normals n =>
    let n := normalize n
    normals ++ [n.x, n.y, n.z]) [])

/-- The `plant` record. -/
structure plant where
  type : String
  xpos : ℚ
  ypos : ℚ
  zpos : ℚ
  xOffset : Int
  yOffset : Int
deriving DecidableEq

/-- State threaded through the vertex loop of `generate_biome`: the colour
buffer, the shared `plants` vector and the number of `rand()` calls made. -/
structure BiomeState where
  colors : List ℚ
  plants : List plant
  calls : Nat

/-- Body of the vertex loop of `generate_biome` for the vertex starting at
`vertices[5*k]`; `rand n` is the value of the `n`-th call of `rand()`. -/
def biome_step (rand : Nat → Nat) (vertices normals : List ℚ) (xOffset yOffset : Int)
    (st : BiomeState) (k : Nat) : Option BiomeState := do
  let i := 5 * k
  let h ← vertices[i + 1]?
  let normalY ← normals[(i / 5) * 3 + 1]?
  let colors := st.colors ++ [1, 1, 1]
  if h > 11.4 ∧ h < 70 ∧ normalY > 0.6 then
    if rand st.calls % 100000 < 15 then
      let type := if rand (st.calls + 1) % 10 < 4 then "tree" else "flower"
      let x ← vertices[i]?
      let z ← vertices[i + 2]?
      pure ⟨colors, st.plants ++ [⟨type, x, h, z, xOffset, yOffset⟩], st.calls + 2⟩
    else pure ⟨colors, st.plants, st.calls + 1⟩
  else pure ⟨colors, st.plants, st.calls⟩

/-- Embedding of `generate_biome(vertices, normals, plants, xOffset, yOffset)`:
the loop `for (i = 0; i < vertices.size(); i += 5)`, started with an empty
colour buffer, the caller's `plants` and `calls` earlier `rand()` calls. -/
def generate_biome (rand : Nat → Nat) (vertices normals : List ℚ) (plants : List plant)
    (calls : Nat) (xOffset yOffset : Int) : Option BiomeState :=
  (List.range ((vertices.length + 4) / 5)).foldlM
    (biome_step rand vertices normals xOffset yOffset) ⟨[], plants, calls⟩

/-- The buffers `generate_map_chunk` uploads for one chunk, and the state it
leaves behind. -/
structure Chunk where
  indices : List Int
  vertices : List ℚ
  normals : List ℚ
  colors : List ℚ
  plants : List plant
  calls : Nat

/-- Embedding of the generation part of `generate_map_chunk(VAO, xOffset, yOffset, plants)`. -/
def generate_map_chunk (normalize : Vec3 → Vec3) (rand : Nat → Nat)
    (heightMapData : Option Heightmap) (chunkWidth chunkHeight : Nat)
    (xOffset yOffset : Int) (plants : List plant) (calls : Nat) : Option Chunk := do
  let indices := generate_indices chunkWidth chunkHeight
  let noise_map ← generate_noise_map heightMapData chunkWidth chunkHeight xOffset yOffset
  let vertices ← generate_vertices chunkWidth chunkHeight noise_map
  let normals ← generate_normals normalize indices vertices
  let st ← generate_biome rand vertices normals plants calls xOffset yOffset
  pure ⟨indices, vertices, normals, st.colors, st.plants, st.calls⟩

/-! ## Heightmap sampler on 32-bit integers -/

/-- Wrap of an integer result into the range of a 32-bit `int` (two's
complement), the behaviour of the compiled code where C++ leaves signed
overflow undefined. -/
def wrap32 (n : Int) : Int := (n + 2147483648) % 4294967296 - 2147483648

/-- `get_mirrored_coord` on 32-bit `int`s: every arithmetic result is wrapped;
in particular `std::abs(INT_MIN)` is `INT_MIN`. -/
def get_mirrored_coord32 (coord maxVal : Int) : Int :=
  let cycle := wrap32 (2 * maxVal)
  let val := Int.tmod (wrap32 (coord.natAbs : Int)) cycle
  if val ≥ maxVal then wrap32 (cycle - 1 - val) else val

/-- `get_smooth_height` on 32-bit `int`s. -/
def get_smooth_height32 (hm : Heightmap) (worldX worldY : Int) : Option ℚ :=
  let offsets : List Int := [-1, 0, 1]
  let acc := offsets.foldlM (fun (acc : ℚ × Nat) oy =>
    offsets.foldlM (fun (acc : ℚ × Nat) ox =>
      let sx := get_mirrored_coord32 (wrap32 (worldX + ox)) hm.hmWidth
      let sy := get_mirrored_coord32 (wrap32 (worldY + oy)) hm.hmHeight
      (readAt hm.data (wrap32 (sy * hm.hmWidth + sx))).map
        (fun b => (acc.1 + (b.val : ℚ) / 255, acc.2 + 1))) acc) ((0 : ℚ), 0)
  acc.map (fun r => r.1 / (r.2 : ℚ))

/-! ## Map projector -/

/-- The conversion `(int)f` of a `float` to `int`: truncation toward zero. -/
def float_to_int (f : ℚ) : Int := Int.tdiv f.num (f.den : Int)

/-- The C library `fmod(x, y)`: `x - n * y` where `n` is `x / y` truncated
toward zero. -/
def fmod (x y : ℚ) : ℚ := x - (float_to_int (x / y) : ℚ) * y

/-- The fold of one normalised player coordinate in `drawFullMap`:
`norm = abs(u); norm = fmod(norm, cycle); if (norm > 1) norm = 2 - norm`. -/
def fold_uv (u : ℚ) : ℚ :=
  let cycle : ℚ := 2
  let normU := |u|
  let normU := fmod normU cycle
  if normU > 1 then 2 - normU else normU

/-- The folded coordinate `drawFullMap` computes from a camera coordinate and
the image dimension: `u = pos / (float)hmDim`, then the fold. -/
def full_map_uv (pos : ℚ) (hmDim : Int) : ℚ := fold_uv (pos / (hmDim : ℚ))

/-! ## Renderer -/

/-- The compiled-in globals `chunkWidth`, `chunkHeight`, `xMapChunks`,
`yMapChunks`. -/
structure WorldConfig where
  chunkWidth : Int
  chunkHeight : Int
  xMapChunks : Int
  yMapChunks : Int

/-- The values the globals are initialised with. -/
def compiled_config : WorldConfig := ⟨127, 127, 20, 20⟩

/-- The global `originX = (chunkWidth * xMapChunks) / 2.0f - chunkWidth / 2.0f`. -/
def originX (cfg : WorldConfig) : ℚ :=
  ((cfg.chunkWidth * cfg.xMapChunks : Int) : ℚ) / 2 - (cfg.chunkWidth : ℚ) / 2

/-- The global `originY = (chunkHeight * yMapChunks) / 2.0f - chunkHeight / 2.0f`. -/
def originY (cfg : WorldConfig) : ℚ :=
  ((cfg.chunkHeight * cfg.yMapChunks : Int) : ℚ) / 2 - (cfg.chunkHeight : ℚ) / 2

/-- In `render`:
`gridPosX = (int)(camera.Position.x - originX) / chunkWidth + xMapChunks / 2`. -/
def gridPosX (cfg : WorldConfig) (camX : ℚ) : Int :=
  Int.tdiv (float_to_int (camX - originX cfg)) cfg.chunkWidth + Int.tdiv cfg.xMapChunks 2

/-- In `render`:
`gridPosY = (int)(camera.Position.z - originY) / chunkHeight + yMapChunks / 2`. -/
def gridPosY (cfg : WorldConfig) (camZ : ℚ) : Int :=
  Int.tdiv (float_to_int (camZ - originY cfg)) cfg.chunkHeight + Int.tdiv cfg.yMapChunks 2

/-- The x translation `render` gives chunk `x`:
`-chunkWidth / 2.0f + (chunkWidth - 1) * x`. -/
def chunk_translate_x (cfg : WorldConfig) (x : Int) : ℚ :=
  ((-cfg.chunkWidth : Int) : ℚ) / 2 + (((cfg.chunkWidth - 1) * x : Int) : ℚ)

/-- The z translation `render` gives chunk `y`:
`-chunkHeight / 2.0f + (chunkHeight - 1) * y`. -/
def chunk_translate_z (cfg : WorldConfig) (y : Int) : ℚ :=
  ((-cfg.chunkHeight : Int) : ℚ) / 2 + (((cfg.chunkHeight - 1) * y : Int) : ℚ)

/-- The drawn extent of chunk `x` along the x axis contains `camX`: the chunk
is translated to `chunk_translate_x` and its triangles span `chunkWidth - 1`
world units (specification side). -/
def in_drawn_extent_x (cfg : WorldConfig) (x : Int) (camX : ℚ) : Prop :=
  chunk_translate_x cfg x ≤ camX ∧
    camX ≤ chunk_translate_x cfg x + ((cfg.chunkWidth - 1 : Int) : ℚ)

/-- The drawn extent of chunk `y` along the z axis contains `camZ`
(specification side). -/
def in_drawn_extent_z (cfg : WorldConfig) (y : Int) (camZ : ℚ) : Prop :=
  chunk_translate_z cfg y ≤ camZ ∧
    camZ ≤ chunk_translate_z cfg y + ((cfg.chunkHeight - 1 : Int) : ℚ)

/-- In `main`: `int nIndices = chunkWidth * chunkHeight * 6`, the count passed
to `glDrawElements` for every terrain chunk. -/
def nIndices (chunkWidth chunkHeight : Int) : Int := chunkWidth * chunkHeight * 6

/-! ## Input -/

/-- The globals `showFullMap` and `mKeyPressed`. -/
structure MapToggle where
  showFullMap : Bool
  mKeyPressed : Bool
deriving DecidableEq

/-- The M-key branch of `processInput` for one frame; `mDown` is
`glfwGetKey(window, GLFW_KEY_M) == GLFW_PRESS`. -/
def processInput_M (s : MapToggle) (mDown : Bool) : MapToggle :=
  if mDown then
    if !s.mKeyPressed then ⟨!s.showFullMap, true⟩ else s
  else ⟨s.showFullMap, false⟩

/-- The M-key state after a sequence of frames. -/
def run_frames (s : MapToggle) (frames : List Bool) : MapToggle :=
  frames.foldl processInput_M s

/-! ## Library model: floats with NaN -/

/-- A `float` value in exact arithmetic with the IEEE special values: a
rational, a finite value that is not rational, an infinity, or NaN. -/
inductive FloatX where
  | fin (q : ℚ)
  | irrational
  | posInf
  | negInf
  | nan
deriving DecidableEq

/-- The IEEE product `q * s` of a finite rational `q` with a float value `s`
(`0 * inf` is NaN). -/
def FloatX.scale (q : ℚ) : FloatX → FloatX
  | .fin s => .fin (q * s)
  | .irrational => if q = 0 then .fin 0 else .irrational
  | .posInf => if q = 0 then .nan else if 0 < q then .posInf else .negInf
  | .negInf => if q = 0 then .nan else if 0 < q then .negInf else .posInf
  | .nan => .nan

/-- The library's `glm::inversesqrt(x) = 1 / sqrt(x)`: `+inf` at `0`, NaN below
`0`, rational exactly when `x` is the square of a rational (numerator and
denominator are perfect squares). -/
def inversesqrt (x : ℚ) : FloatX :=
  if x < 0 then .nan
  else if x = 0 then .posInf
  else if Nat.sqrt x.num.natAbs * Nat.sqrt x.num.natAbs = x.num.natAbs ∧
      Nat.sqrt x.den * Nat.sqrt x.den = x.den then
    .fin ((Nat.sqrt x.den : ℚ) / (Nat.sqrt x.num.natAbs : ℚ))
  else .irrational

/-- A `glm::vec3` of float values that may be special. -/
structure FloatVec3 where
  x : FloatX
  y : FloatX
  z : FloatX
deriving DecidableEq

/-- The library's `glm::dot`. -/
def Vec3.dot (a b : Vec3) : ℚ := a.x * b.x + a.y * b.y + a.z * b.z

/-- The library's `glm::normalize(v) = v * inversesqrt(dot(v, v))`. -/
def glm_normalize (v : Vec3) : FloatVec3 :=
  let s := inversesqrt (Vec3.dot v v)
  ⟨FloatX.scale v.x s, FloatX.scale v.y s, FloatX.scale v.z s⟩

/-- Embedding of `generate_normals(indices, vertices)` with the normalised
components in the float model that has infinities and NaN. -/
def generate_normals_ieee (normalize : Vec3 → FloatVec3) (indices : List Int)
    (vertices : List ℚ) : Option (List FloatX) := do
  let tempNormals := List.replicate (vertices.length / 5) (⟨0, 0, 0⟩ : Vec3)
  let tempNormals ← (List.range ((indices.length + 2) / 3)).foldlM
    (normals_step indices vertices) tempNormals
  pure (tempNormals.foldl (fun normals n =>
    let n := normalize n
    normals ++ [n.x, n.y, n.z]) [])

/-! ## Vegetation instancer -/

/-- The state `setup_instancing` works on: the global per-chunk instance
counts, the caller's vector `plant_chunk` of vertex-array names (`0` is no
vertex array) and the number of `glGenVertexArrays` calls made so far. -/
structure InstancingState where
  treeInstanceCounts : List Int
  flowerInstanceCounts : List Int
  plant_chunk : List Nat
  vaoCalls : Nat

/-- The three `chunkInstances[idx].push_back(...)` of one plant. -/
def push_instance (chunkInstances : List (List ℚ)) (idx : Int) (p : plant) :
    Option (List (List ℚ)) :=
  (readAt chunkInstances idx).map fun inst =>
    chunkInstances.set idx.toNat (inst ++ [p.xpos, p.ypos, p.zpos])

/-- The first loop of `setup_instancing`: the per-chunk offset buffers
`chunkInstances` (the counter `totalPlants` is only printed). -/
def collect_instances (xMapChunks yMapChunks : Nat) (plant_type : String)
    (plants : List plant) : Option (List (List ℚ)) :=
  plants.foldlM (fun chunkInstances p =>
    if p.type = plant_type then
      let idx : Int := p.xOffset + p.yOffset * (xMapChunks : Int)
      push_instance chunkInstances idx p
    else some chunkInstances) (List.replicate (xMapChunks * yMapChunks) [])

/-- A subscript write `buf[i] = v`: `none` when out of bounds. -/
def writeAt {α : Type} (buf : List α) (i : Nat) (v : α) : Option (List α) :=
  if i < buf.length then some (buf.set i v) else none

/-- The counter vector `setup_instancing` writes for a species:
`treeInstanceCounts` for `"tree"`, `flowerInstanceCounts` otherwise. -/
def instance_counts (plant_type : String) (st : InstancingState) : List Int :=
  if plant_type = "tree" then st.treeInstanceCounts else st.flowerInstanceCounts

/-- Body of the second loop of `setup_instancing` for chunk `i`. `genVAO n`
is the name the `n`-th `glGenVertexArrays` call returns; the vertex array is
generated once by `glGenVertexArrays(1, &plant_chunk[i])` and once more inside
`load_model(plant_chunk[i], filename)`, which loads the file the first call
loaded. -/
def allocate_step (genVAO : Nat → Nat) (plant_type : String)
    (chunkInstances : List (List ℚ)) (st : InstancingState) (i : Nat) :
    Option InstancingState := do
  let inst ← chunkInstances[i]?
  if inst.isEmpty then pure st
  else
    let n : Int := ((inst.length / 3 : Nat) : Int)
    let st ←
      if plant_type = "tree" then
        (writeAt st.treeInstanceCounts i n).map fun t => { st with treeInstanceCounts := t }
      else
        (writeAt st.flowerInstanceCounts i n).map fun t => { st with flowerInstanceCounts := t }
    let pc ← writeAt st.plant_chunk i (genVAO st.vaoCalls)
    let pc ← writeAt pc i (genVAO (st.vaoCalls + 1))
    pure { st with plant_chunk := pc, vaoCalls := st.vaoCalls + 2 }

/-- Embedding of `setup_instancing(plant_chunk, plant_type, plants, filename,
vCount)`; `vCount` is what `load_model(baseVAO, filename)` returned. -/
def setup_instancing (genVAO : Nat → Nat) (xMapChunks yMapChunks : Nat) (vCount : Int)
    (plant_type : String) (plants : List plant) (st : InstancingState) :
    Option InstancingState :=
  if vCount = 0 then some st
  else do
    let st := { st with vaoCalls := st.vaoCalls + 1 }
    let chunkInstances ← collect_instances xMapChunks yMapChunks plant_type plants
    (List.range (xMapChunks * yMapChunks)).foldlM
      (allocate_step genVAO plant_type chunkInstances) st

/-- Number of plants of species `S` owned by chunk `(x, y)` (specification
side). -/
def plants_owned (S : String) (x y : Int) (plants : List plant) : Nat :=
  plants.countP fun p => decide (p.type = S ∧ p.xOffset = x ∧ p.yOffset = y)


/-! ## Lemmas on the mirrored wrap -/

theorem get_mirrored_coord_eq_emod (c m : Int) (hm : 0 < m) :
    get_mirrored_coord c m =
      if (|c| % (2 * m)) ≥ m then 2 * m - 1 - |c| % (2 * m) else |c| % (2 * m) := by
  unfold get_mirrored_coord
  have h : Int.tmod (c.natAbs : Int) (2 * m) = |c| % (2 * m) := by
    rw [Int.tmod_eq_emod (by positivity) (by omega), Int.natCast_natAbs]
  simp only [h]

theorem get_mirrored_coord_range (c m : Int) (hm : 0 < m) :
    0 ≤ get_mirrored_coord c m ∧ get_mirrored_coord c m < m := by
  rw [get_mirrored_coord_eq_emod c m hm]
  have h1 : 0 ≤ |c| % (2 * m) := Int.emod_nonneg _ (by omega)
  have h2 : |c| % (2 * m) < 2 * m := Int.emod_lt_of_pos _ (by omega)
  split <;> omega

theorem get_mirrored_coord_of_small (k m : Int) (h0 : 0 ≤ k) (h1 : k < 2 * m) :
    get_mirrored_coord k m = if k ≥ m then 2 * m - 1 - k else k := by
  rw [get_mirrored_coord_eq_emod k m (by omega), abs_of_nonneg h0, Int.emod_eq_of_lt h0 h1]

theorem get_mirrored_coord_neg (c m : Int) :
    get_mirrored_coord (-c) m = get_mirrored_coord c m := by
  unfold get_mirrored_coord
  simp

theorem get_mirrored_coord_add_cycle (c m : Int) (hc : 0 ≤ c) (hm : 0 < m) :
    get_mirrored_coord (c + 2 * m) m = get_mirrored_coord c m := by
  rw [get_mirrored_coord_eq_emod _ m hm, get_mirrored_coord_eq_emod _ m hm,
    abs_of_nonneg hc, abs_of_nonneg (by omega : 0 ≤ c + 2 * m), Int.add_emod_self]

theorem foldlM_append_some {α β : Type} (l : List α) (step : List β → α → Option (List β))
    (row : α → List β) (h : ∀ acc, ∀ a ∈ l, step acc a = some (acc ++ row a))
    (init : List β) : l.foldlM step init = some (init ++ l.flatMap row) := by
  induction l generalizing init with
  | nil => simp
  | cons a t ih =>
    rw [List.foldlM_cons, h init a (List.mem_cons_self a t)]
    simp only [Option.bind_eq_bind, Option.some_bind, List.flatMap_cons]
    rw [ih (fun acc b hb => h acc b (List.mem_cons_of_mem a hb)), List.append_assoc]

theorem foldl_append_flatMap {α β : Type} (l : List α) (step : List β → α → List β)
    (row : α → List β) (h : ∀ acc, ∀ a ∈ l, step acc a = acc ++ row a)
    (init : List β) : l.foldl step init = init ++ l.flatMap row := by
  induction l generalizing init with
  | nil => simp
  | cons a t ih =>
    rw [List.foldl_cons, h init a (List.mem_cons_self a t), List.flatMap_cons,
      ih (fun acc b hb => h acc b (List.mem_cons_of_mem a hb)), List.append_assoc]

theorem length_flatMap_range {β : Type} (n k : Nat) (f : Nat → List β)
    (h : ∀ i, i < n → (f i).length = k) : ((List.range n).flatMap f).length = n * k := by
  induction n with
  | zero => simp
  | succ n ih =>
    rw [List.range_succ, List.flatMap_append, List.length_append,
      ih (fun i hi => h i (by omega))]
    simp [h n (by omega)]
    ring

theorem getElem?_flatMap_range {β : Type} (n k : Nat) (f : Nat → List β)
    (h : ∀ i, i < n → (f i).length = k) (i j : Nat) (hi : i < n) (hj : j < k) :
    ((List.range n).flatMap f)[i * k + j]? = (f i)[j]? := by
  induction n with
  | zero => omega
  | succ n ih =>
    have hlen := length_flatMap_range n k f (fun i hi => h i (by omega))
    rw [List.range_succ, List.flatMap_append, List.getElem?_append, hlen]
    by_cases hin : i < n
    · have : i * k + j < n * k := by
        calc i * k + j < i * k + k := by omega
          _ = (i + 1) * k := by ring
          _ ≤ n * k := Nat.mul_le_mul_right k hin
      rw [if_pos this]
      exact ih (fun i hi => h i (by omega)) hin
    · have hieq : i = n := by omega
      subst hieq
      have : ¬ (i * k + j < i * k) := by omega
      rw [if_neg this]
      simp

theorem readAt_eq_some {α : Type} (buf : List α) (i : Int) (d : α) (h0 : 0 ≤ i)
    (h1 : i < buf.length) : readAt buf i = some (buf.getD i.toNat d) := by
  have h2 : i.toNat < buf.length := by omega
  unfold readAt
  rw [if_pos h0, List.getElem?_eq_getElem h2, List.getD_eq_getElem buf d h2]

theorem sample_index_in_bounds (hm : Heightmap) (hwf : hm.WellFormed) (wx wy : Int) :
    0 ≤ get_mirrored_coord wy hm.hmHeight * hm.hmWidth + get_mirrored_coord wx hm.hmWidth ∧
    get_mirrored_coord wy hm.hmHeight * hm.hmWidth + get_mirrored_coord wx hm.hmWidth
      < (hm.data.length : Int) := by
  obtain ⟨hW, hH, hlen⟩ := hwf
  obtain ⟨x0, x1⟩ := get_mirrored_coord_range wx hm.hmWidth hW
  obtain ⟨y0, y1⟩ := get_mirrored_coord_range wy hm.hmHeight hH
  rw [hlen]
  constructor
  · positivity
  · nlinarith

theorem read_sample (hm : Heightmap) (hwf : hm.WellFormed) (wx wy : Int) :
    readAt hm.data
      (get_mirrored_coord wy hm.hmHeight * hm.hmWidth + get_mirrored_coord wx hm.hmWidth)
      = some (hm.data.getD
          (get_mirrored_coord wy hm.hmHeight * hm.hmWidth
            + get_mirrored_coord wx hm.hmWidth).toNat 0) :=
  readAt_eq_some _ _ _ (sample_index_in_bounds hm hwf wx wy).1
    (sample_index_in_bounds hm hwf wx wy).2

theorem wrapped_sample_range (hm : Heightmap) (wx wy : Int) :
    0 ≤ wrapped_sample hm wx wy ∧ wrapped_sample hm wx wy ≤ 1 := by
  unfold wrapped_sample
  simp only
  generalize hm.data.getD _ 0 = b
  have hb : ((b.val : Nat) : ℚ) ≤ 255 := by
    have : b.val ≤ 255 := by omega
    exact_mod_cast this
  have hb0 : (0 : ℚ) ≤ ((b.val : Nat) : ℚ) := by positivity
  constructor
  · positivity
  · rw [div_le_one (by norm_num)]; exact hb

theorem box_mean_range (hm : Heightmap) (wx wy : Int) :
    0 ≤ box_mean hm wx wy ∧ box_mean hm wx wy ≤ 1 := by
  unfold box_mean
  have a1 := wrapped_sample_range hm (wx - 1) (wy - 1)
  have a2 := wrapped_sample_range hm wx (wy - 1)
  have a3 := wrapped_sample_range hm (wx + 1) (wy - 1)
  have a4 := wrapped_sample_range hm (wx - 1) wy
  have a5 := wrapped_sample_range hm wx wy
  have a6 := wrapped_sample_range hm (wx + 1) wy
  have a7 := wrapped_sample_range hm (wx - 1) (wy + 1)
  have a8 := wrapped_sample_range hm wx (wy + 1)
  have a9 := wrapped_sample_range hm (wx + 1) (wy + 1)
  constructor
  · apply div_nonneg _ (by norm_num); linarith
  · rw [div_le_one (by norm_num)]; linarith

theorem get_smooth_height_eq (hm : Heightmap) (hwf : hm.WellFormed) (wx wy : Int) :
    get_smooth_height hm wx wy = some (box_mean hm wx wy) := by
  unfold get_smooth_height
  simp only [List.foldlM_cons, List.foldlM_nil, read_sample hm hwf, Option.map_some',
    Option.bind_eq_bind, Option.some_bind, Option.pure_def]
  unfold box_mean wrapped_sample
  simp only [Int.add_zero, ← sub_eq_add_neg]
  congr 1
  push_cast
  ring


theorem length_grid {β : Type} (n m k : Nat) (f : Nat → Nat → List β)
    (h : ∀ y x, y < n → x < m → (f y x).length = k) :
    ((List.range n).flatMap fun y => (List.range m).flatMap (f y)).length = n * (m * k) :=
  length_flatMap_range n (m * k) _ (fun y hy =>
    length_flatMap_range m k (f y) (fun x hx => h y x hy hx))

theorem getElem?_grid {β : Type} (n m k : Nat) (f : Nat → Nat → List β)
    (h : ∀ y x, y < n → x < m → (f y x).length = k) (y x j : Nat)
    (hy : y < n) (hx : x < m) (hj : j < k) :
    ((List.range n).flatMap fun y => (List.range m).flatMap (f y))[(x + y * m) * k + j]?
      = (f y x)[j]? := by
  have hidx : (x + y * m) * k + j = y * (m * k) + (x * k + j) := by ring
  have hlt : x * k + j < m * k := by
    calc x * k + j < x * k + k := by omega
      _ = (x + 1) * k := by ring
      _ ≤ m * k := Nat.mul_le_mul_right k hx
  rw [hidx, getElem?_flatMap_range n (m * k) _
    (fun y hy => length_flatMap_range m k (f y) (fun x hx => h y x hy hx)) y _ hy hlt]
  exact getElem?_flatMap_range m k (f y) (fun x hx => h y x hy hx) x j hx hj

theorem generate_noise_map_some (hm : Heightmap) (hwf : hm.WellFormed)
    (chunkWidth chunkHeight : Nat) (xOffset yOffset : Int) :
    generate_noise_map (some hm) chunkWidth chunkHeight xOffset yOffset =
      some ((List.range (chunkHeight + 1)).flatMap fun y =>
        (List.range chunkWidth).flatMap fun x =>
          [box_mean hm ((x : Int) + xOffset * ((chunkWidth : Int) - 1))
            ((y : Int) + yOffset * ((chunkHeight : Int) - 1))]) := by
  unfold generate_noise_map
  simp only
  rw [foldlM_append_some (List.range (chunkHeight + 1)) _
    (fun y => (List.range chunkWidth).flatMap fun x =>
      [box_mean hm ((x : Int) + xOffset * ((chunkWidth : Int) - 1))
        ((y : Int) + yOffset * ((chunkHeight : Int) - 1))])]
  · simp
  · intro acc y _
    apply foldlM_append_some
    intro acc x _
    simp [get_smooth_height_eq hm hwf]


theorem cell_lt (chunkWidth n x y : Nat) (hx : x < chunkWidth) (hy : y < n) :
    x + y * chunkWidth < chunkWidth * n := by
  calc x + y * chunkWidth < chunkWidth + y * chunkWidth := by omega
    _ = chunkWidth * (y + 1) := by ring
    _ ≤ chunkWidth * n := Nat.mul_le_mul_left chunkWidth hy

theorem generate_noise_map_spec (heightMapData : Option Heightmap)
    (hwf : ∀ hm, heightMapData = some hm → hm.WellFormed)
    (chunkWidth chunkHeight : Nat) (xOffset yOffset : Int) :
    ∃ nm, generate_noise_map heightMapData chunkWidth chunkHeight xOffset yOffset = some nm ∧
      nm.length = chunkWidth * (chunkHeight + 1) ∧
      ∀ x y, x < chunkWidth → y < chunkHeight + 1 →
        nm[x + y * chunkWidth]? =
          some (noise_value heightMapData ((x : Int) + xOffset * ((chunkWidth : Int) - 1))
            ((y : Int) + yOffset * ((chunkHeight : Int) - 1))) := by
  cases heightMapData with
  | none =>
    refine ⟨_, rfl, by simp, ?_⟩
    intro x y hx hy
    have := cell_lt chunkWidth (chunkHeight + 1) x y hx hy
    simp [noise_value, List.getElem?_replicate, this]
  | some hm =>
    refine ⟨_, generate_noise_map_some hm (hwf hm rfl) _ _ _ _, ?_, ?_⟩
    · rw [length_grid (chunkHeight + 1) chunkWidth 1 _ (by intros; rfl)]
      ring
    · intro x y hx hy
      have := getElem?_grid (chunkHeight + 1) chunkWidth 1
        (fun (y x : Nat) => [box_mean hm ((x : Int) + xOffset * ((chunkWidth : Int) - 1))
            ((y : Int) + yOffset * ((chunkHeight : Int) - 1))])
        (fun _ _ _ _ => rfl) y x 0 hy hx (by omega)
      simpa [noise_value] using this

theorem generate_vertices_spec (chunkWidth chunkHeight : Nat) (noise_map : List ℚ)
    (hlen : noise_map.length = chunkWidth * (chunkHeight + 1)) :
    ∃ vs, generate_vertices chunkWidth chunkHeight noise_map = some vs ∧
      vs.length = 5 * (chunkWidth * (chunkHeight + 1)) ∧
      ∀ x y, x < chunkWidth → y < chunkHeight + 1 →
        vs[(x + y * chunkWidth) * 5]? = some (x : ℚ) ∧
        vs[(x + y * chunkWidth) * 5 + 1]? =
          some (vertex_height (noise_map.getD (x + y * chunkWidth) 0)) ∧
        vs[(x + y * chunkWidth) * 5 + 2]? = some (y : ℚ) := by
  have hgen : generate_vertices chunkWidth chunkHeight noise_map =
      some ((List.range (chunkHeight + 1)).flatMap fun y =>
        (List.range chunkWidth).flatMap fun x =>
          [(x : ℚ), vertex_height (noise_map.getD (x + y * chunkWidth) 0), (y : ℚ),
            (x : ℚ) / (chunkWidth : ℚ), (y : ℚ) / (chunkHeight : ℚ)]) := by
    unfold generate_vertices
    rw [foldlM_append_some (List.range (chunkHeight + 1)) _
      (fun y => (List.range chunkWidth).flatMap fun x =>
        [(x : ℚ), vertex_height (noise_map.getD (x + y * chunkWidth) 0), (y : ℚ),
          (x : ℚ) / (chunkWidth : ℚ), (y : ℚ) / (chunkHeight : ℚ)])]
    · simp
    · intro acc y hy
      apply foldlM_append_some
      intro acc x hx
      have hlt : x + y * chunkWidth < noise_map.length := by
        rw [hlen]
        exact cell_lt chunkWidth (chunkHeight + 1) x y (List.mem_range.1 hx)
          (List.mem_range.1 hy)
      rw [List.getElem?_eq_getElem hlt, List.getD_eq_getElem noise_map 0 hlt]
      rfl
  refine ⟨_, hgen, ?_, ?_⟩
  · rw [length_grid (chunkHeight + 1) chunkWidth 5 _ (by intros; rfl)]
    ring
  · intro x y hx hy
    have key := fun j hj => getElem?_grid (chunkHeight + 1) chunkWidth 5
      (fun (y x : Nat) =>
        [(x : ℚ), vertex_height (noise_map.getD (x + y * chunkWidth) 0), (y : ℚ),
          (x : ℚ) / (chunkWidth : ℚ), (y : ℚ) / (chunkHeight : ℚ)])
      (fun _ _ _ _ => rfl) y x j hy hx hj
    refine ⟨?_, ?_, ?_⟩
    · simpa using key 0 (by omega)
    · simpa using key 1 (by omega)
    · simpa using key 2 (by omega)

theorem vertex_height_of_le (r : ℚ) (h : r ≤ 0.08) : vertex_height r = 0 := by
  unfold vertex_height
  have : max 0 (r - 0.08) = 0 := max_eq_left (by linarith)
  simp [this]

theorem vertex_height_mono (r1 r2 : ℚ) (h1 : 0.08 ≤ r1) (h12 : r1 ≤ r2) :
    vertex_height r1 ≤ vertex_height r2 := by
  unfold vertex_height meshHeight
  have e1 : max 0 (r1 - 0.08) = r1 - 0.08 := max_eq_right (by linarith)
  have e2 : max 0 (r2 - 0.08) = r2 - 0.08 := max_eq_right (by linarith)
  simp only [e1, e2]
  have : (r1 - 0.08) ^ 2 ≤ (r2 - 0.08) ^ 2 :=
    pow_le_pow_left₀ (by linarith) (by linarith) 2
  linarith


theorem generate_indices_eq (chunkWidth chunkHeight : Nat) :
    generate_indices chunkWidth chunkHeight =
      (List.range (chunkHeight - 1)).flatMap fun y =>
        (List.range (chunkWidth - 1)).flatMap fun x =>
          [(x : Int) + (y : Int) * (chunkWidth : Int),
           (x : Int) + (y : Int) * (chunkWidth : Int) + chunkWidth,
           (x : Int) + (y : Int) * (chunkWidth : Int) + chunkWidth + 1,
           (x : Int) + (y : Int) * (chunkWidth : Int),
           (x : Int) + (y : Int) * (chunkWidth : Int) + chunkWidth + 1,
           (x : Int) + (y : Int) * (chunkWidth : Int) + 1] := by
  unfold generate_indices
  rw [foldl_append_flatMap (List.range (chunkHeight - 1)) _
    (fun y => (List.range (chunkWidth - 1)).flatMap fun x =>
      [(x : Int) + (y : Int) * (chunkWidth : Int),
       (x : Int) + (y : Int) * (chunkWidth : Int) + chunkWidth,
       (x : Int) + (y : Int) * (chunkWidth : Int) + chunkWidth + 1,
       (x : Int) + (y : Int) * (chunkWidth : Int),
       (x : Int) + (y : Int) * (chunkWidth : Int) + chunkWidth + 1,
       (x : Int) + (y : Int) * (chunkWidth : Int) + 1])]
  · simp
  · intro acc y _
    apply foldl_append_flatMap
    intro acc x _
    rfl

theorem generate_indices_length (chunkWidth chunkHeight : Nat) :
    (generate_indices chunkWidth chunkHeight).length
      = 3 * ((chunkWidth - 1) * (chunkHeight - 1) * 2) := by
  rw [generate_indices_eq, length_grid (chunkHeight - 1) (chunkWidth - 1) 6 _ (by intros; rfl)]
  ring

/-- Every triangle of `generate_indices` is one of the two triangles of a grid
quad `(x, y)`, given as vertex cells. -/
theorem triangle_at (chunkWidth chunkHeight k : Nat)
    (hk : 3 * k < (generate_indices chunkWidth chunkHeight).length) :
    ∃ x y : Nat, x + 1 < chunkWidth ∧ y + 1 < chunkHeight ∧
      (generate_indices chunkWidth chunkHeight)[3 * k]?
        = some (((x + y * chunkWidth : Nat) : Int)) ∧
      (((generate_indices chunkWidth chunkHeight)[3 * k + 1]?
          = some (((x + (y + 1) * chunkWidth : Nat) : Int)) ∧
        (generate_indices chunkWidth chunkHeight)[3 * k + 2]?
          = some ((((x + 1) + (y + 1) * chunkWidth : Nat) : Int))) ∨
       ((generate_indices chunkWidth chunkHeight)[3 * k + 1]?
          = some ((((x + 1) + (y + 1) * chunkWidth : Nat) : Int)) ∧
        (generate_indices chunkWidth chunkHeight)[3 * k + 2]?
          = some ((((x + 1) + y * chunkWidth : Nat) : Int)))) := by
  rw [generate_indices_length] at hk
  have hw : 0 < chunkWidth - 1 := by
    rcases Nat.eq_zero_or_pos (chunkWidth - 1) with h | h
    · rw [h] at hk; simp at hk
    · exact h
  have hq : k / 2 < (chunkWidth - 1) * (chunkHeight - 1) := by omega
  have hx : (k / 2) % (chunkWidth - 1) < chunkWidth - 1 := Nat.mod_lt _ hw
  have hy : (k / 2) / (chunkWidth - 1) < chunkHeight - 1 :=
    (Nat.div_lt_iff_lt_mul hw).2 (by rw [Nat.mul_comm]; exact hq)
  have hqeq : (k / 2) % (chunkWidth - 1) + (k / 2) / (chunkWidth - 1) * (chunkWidth - 1)
      = k / 2 := by
    rw [Nat.mul_comm]; exact Nat.mod_add_div _ _
  have key := fun j hj => getElem?_grid (chunkHeight - 1) (chunkWidth - 1) 6
    (fun (y x : Nat) =>
      [(x : Int) + (y : Int) * (chunkWidth : Int),
       (x : Int) + (y : Int) * (chunkWidth : Int) + chunkWidth,
       (x : Int) + (y : Int) * (chunkWidth : Int) + chunkWidth + 1,
       (x : Int) + (y : Int) * (chunkWidth : Int),
       (x : Int) + (y : Int) * (chunkWidth : Int) + chunkWidth + 1,
       (x : Int) + (y : Int) * (chunkWidth : Int) + 1])
    (fun _ _ _ _ => rfl) ((k / 2) / (chunkWidth - 1)) ((k / 2) % (chunkWidth - 1)) j hy hx hj
  rw [hqeq] at key
  rw [generate_indices_eq]
  clear hqeq
  generalize (k / 2) % (chunkWidth - 1) = x at hx key
  generalize (k / 2) / (chunkWidth - 1) = y at hy key
  refine ⟨x, y, by omega, by omega, ?_⟩
  rcases Nat.mod_two_eq_zero_or_one k with h2 | h2
  · have e0 : 3 * k = k / 2 * 6 + 0 := by omega
    have e1 : 3 * k + 1 = k / 2 * 6 + 1 := by omega
    have e2 : 3 * k + 2 = k / 2 * 6 + 2 := by omega
    rw [e2, e1, e0, key 0 (by omega), key 1 (by omega), key 2 (by omega)]
    refine ⟨?_, Or.inl ⟨?_, ?_⟩⟩ <;> simp <;> ring
  · have e0 : 3 * k = k / 2 * 6 + 3 := by omega
    have e1 : 3 * k + 1 = k / 2 * 6 + 4 := by omega
    have e2 : 3 * k + 2 = k / 2 * 6 + 5 := by omega
    rw [e2, e1, e0, key 3 (by omega), key 4 (by omega), key 5 (by omega)]
    refine ⟨?_, Or.inr ⟨?_, ?_⟩⟩ <;> simp <;> ring

theorem readAt_natCast {α : Type} (buf : List α) (n : Nat) :
    readAt buf (n : Int) = buf[n]? := by
  simp [readAt]

theorem read_vertex_natCast (vertices : List ℚ) (n : Nat) (a b c : ℚ)
    (ha : vertices[n * 5]? = some a) (hb : vertices[n * 5 + 1]? = some b)
    (hc : vertices[n * 5 + 2]? = some c) :
    read_vertex vertices (n : Int) = some ⟨a, b, c⟩ := by
  unfold read_vertex
  have e0 : (n : Int) * 5 = ((n * 5 : Nat) : Int) := by push_cast; ring
  have e1 : (n : Int) * 5 + 1 = ((n * 5 + 1 : Nat) : Int) := by push_cast; ring
  have e2 : (n : Int) * 5 + 2 = ((n * 5 + 2 : Nat) : Int) := by push_cast; ring
  rw [e2, e1, e0, readAt_natCast, readAt_natCast, readAt_natCast, ha, hb, hc]
  rfl


theorem foldlM_range_inv {σ : Type} (P : Nat → σ → Prop) (step : σ → Nat → Option σ)
    (n : Nat) (h : ∀ k s, k < n → P k s → ∃ s', step s k = some s' ∧ P (k + 1) s')
    (init : σ) (h0 : P 0 init) :
    ∃ s', (List.range n).foldlM step init = some s' ∧ P n s' := by
  induction n with
  | zero => exact ⟨init, by simp, h0⟩
  | succ n ih =>
    obtain ⟨s, hs, hP⟩ := ih (fun k s hk hp => h k s (by omega) hp)
    obtain ⟨s', hs', hP'⟩ := h n s (by omega) hP
    refine ⟨s', ?_, hP'⟩
    rw [List.range_succ, List.foldlM_append, hs]
    simp [hs']

theorem foldlM_some_inv {σ α : Type} (P : σ → Prop) (step : σ → α → Option σ) (l : List α)
    (h : ∀ s a s', P s → step s a = some s' → P s') (init s' : σ) (h0 : P init)
    (hs : l.foldlM step init = some s') : P s' := by
  induction l generalizing init with
  | nil =>
    simp at hs
    exact hs ▸ h0
  | cons a t ih =>
    rw [List.foldlM_cons] at hs
    cases hstep : step init a with
    | none => rw [hstep] at hs; simp at hs
    | some s1 =>
      rw [hstep] at hs
      exact ih s1 (h init a s1 h0 hstep) hs

theorem accumulate_natCast (tempNormals : List Vec3) (n : Nat) (norm : Vec3)
    (h : n < tempNormals.length) :
    ∃ t, accumulate tempNormals (n : Int) norm = some t ∧ t.length = tempNormals.length := by
  unfold accumulate
  rw [readAt_natCast, List.getElem?_eq_getElem h]
  exact ⟨_, rfl, by simp⟩

/-- The vertex position `generate_vertices` stores for grid cell `(x, y)`. -/
theorem read_vertex_cell (chunkWidth chunkHeight : Nat) (noise_map vs : List ℚ)
    (hlen : noise_map.length = chunkWidth * (chunkHeight + 1))
    (hvs : generate_vertices chunkWidth chunkHeight noise_map = some vs)
    (x y : Nat) (hx : x < chunkWidth) (hy : y < chunkHeight + 1) :
    read_vertex vs ((x + y * chunkWidth : Nat) : Int) =
      some ⟨(x : ℚ), vertex_height (noise_map.getD (x + y * chunkWidth) 0), (y : ℚ)⟩ := by
  obtain ⟨vs', hvs', _, hget⟩ := generate_vertices_spec chunkWidth chunkHeight noise_map hlen
  rw [hvs] at hvs'
  cases hvs'
  obtain ⟨h0, h1, h2⟩ := hget x y hx hy
  exact read_vertex_natCast vs _ _ _ _ h0 h1 h2

/-- Every triangle of `generate_indices` reads three vertices of the generated
buffer and its face normal has up-component `1`. -/
theorem face_normal_triangle (chunkWidth chunkHeight : Nat) (noise_map vs : List ℚ)
    (hlen : noise_map.length = chunkWidth * (chunkHeight + 1))
    (hvs : generate_vertices chunkWidth chunkHeight noise_map = some vs) (k : Nat)
    (hk : 3 * k < (generate_indices chunkWidth chunkHeight).length) :
    ∃ (a b c : Nat) (n : Vec3),
      a < chunkWidth * (chunkHeight + 1) ∧ b < chunkWidth * (chunkHeight + 1) ∧
      c < chunkWidth * (chunkHeight + 1) ∧
      (generate_indices chunkWidth chunkHeight)[3 * k]? = some (a : Int) ∧
      (generate_indices chunkWidth chunkHeight)[3 * k + 1]? = some (b : Int) ∧
      (generate_indices chunkWidth chunkHeight)[3 * k + 2]? = some (c : Int) ∧
      face_normal vs (a : Int) (b : Int) (c : Int) = some n ∧ n.y = 1 := by
  obtain ⟨x, y, hx, hy, h0, h12⟩ := triangle_at chunkWidth chunkHeight k hk
  have r00 := read_vertex_cell chunkWidth chunkHeight noise_map vs hlen hvs x y
    (by omega) (by omega)
  have r01 := read_vertex_cell chunkWidth chunkHeight noise_map vs hlen hvs x (y + 1)
    (by omega) (by omega)
  have r11 := read_vertex_cell chunkWidth chunkHeight noise_map vs hlen hvs (x + 1) (y + 1)
    (by omega) (by omega)
  have r10 := read_vertex_cell chunkWidth chunkHeight noise_map vs hlen hvs (x + 1) y
    (by omega) (by omega)
  have b00 := cell_lt chunkWidth (chunkHeight + 1) x y (by omega) (by omega)
  have b01 := cell_lt chunkWidth (chunkHeight + 1) x (y + 1) (by omega) (by omega)
  have b11 := cell_lt chunkWidth (chunkHeight + 1) (x + 1) (y + 1) (by omega) (by omega)
  have b10 := cell_lt chunkWidth (chunkHeight + 1) (x + 1) y (by omega) (by omega)
  rcases h12 with ⟨h1, h2⟩ | ⟨h1, h2⟩
  · have f : face_normal vs ((x + y * chunkWidth : Nat) : Int)
        ((x + (y + 1) * chunkWidth : Nat) : Int) (((x + 1) + (y + 1) * chunkWidth : Nat) : Int)
        = some (Vec3.cross
            (Vec3.sub ⟨(x : ℚ), vertex_height (noise_map.getD (x + (y + 1) * chunkWidth) 0),
                ((y + 1 : Nat) : ℚ)⟩
              ⟨(x : ℚ), vertex_height (noise_map.getD (x + y * chunkWidth) 0), (y : ℚ)⟩)
            (Vec3.sub ⟨((x + 1 : Nat) : ℚ),
                vertex_height (noise_map.getD ((x + 1) + (y + 1) * chunkWidth) 0),
                ((y + 1 : Nat) : ℚ)⟩
              ⟨(x : ℚ), vertex_height (noise_map.getD (x + y * chunkWidth) 0), (y : ℚ)⟩)) := by
      unfold face_normal
      rw [r00, r01, r11]
      rfl
    refine ⟨_, _, _, _, b00, b01, b11, h0, h1, h2, f, ?_⟩
    simp [Vec3.cross, Vec3.sub]
  · have f : face_normal vs ((x + y * chunkWidth : Nat) : Int)
        (((x + 1) + (y + 1) * chunkWidth : Nat) : Int) (((x + 1) + y * chunkWidth : Nat) : Int)
        = some (Vec3.cross
            (Vec3.sub ⟨((x + 1 : Nat) : ℚ),
                vertex_height (noise_map.getD ((x + 1) + (y + 1) * chunkWidth) 0),
                ((y + 1 : Nat) : ℚ)⟩
              ⟨(x : ℚ), vertex_height (noise_map.getD (x + y * chunkWidth) 0), (y : ℚ)⟩)
            (Vec3.sub ⟨((x + 1 : Nat) : ℚ),
                vertex_height (noise_map.getD ((x + 1) + y * chunkWidth) 0), (y : ℚ)⟩
              ⟨(x : ℚ), vertex_height (noise_map.getD (x + y * chunkWidth) 0), (y : ℚ)⟩)) := by
      unfold face_normal
      rw [r00, r11, r10]
      rfl
    refine ⟨_, _, _, _, b00, b11, b10, h0, h1, h2, f, ?_⟩
    simp [Vec3.cross, Vec3.sub]


theorem normals_step_some (chunkWidth chunkHeight : Nat) (noise_map vs : List ℚ)
    (hlen : noise_map.length = chunkWidth * (chunkHeight + 1))
    (hvs : generate_vertices chunkWidth chunkHeight noise_map = some vs) (k : Nat)
    (hk : 3 * k < (generate_indices chunkWidth chunkHeight).length)
    (t : List Vec3) (ht : t.length = chunkWidth * (chunkHeight + 1)) :
    ∃ t', normals_step (generate_indices chunkWidth chunkHeight) vs t k = some t' ∧
      t'.length = chunkWidth * (chunkHeight + 1) := by
  obtain ⟨a, b, c, n, ha, hb, hc, h0, h1, h2, hf, _⟩ :=
    face_normal_triangle chunkWidth chunkHeight noise_map vs hlen hvs k hk
  obtain ⟨t1, e1, l1⟩ := accumulate_natCast t a n (by omega)
  obtain ⟨t2, e2, l2⟩ := accumulate_natCast t1 b n (by omega)
  obtain ⟨t3, e3, l3⟩ := accumulate_natCast t2 c n (by omega)
  refine ⟨t3, ?_, by omega⟩
  unfold normals_step
  rw [h0, h1, h2]
  simp only [Option.bind_eq_bind, Option.some_bind, hf, e1, e2, e3]

theorem length_push_normals (normalize : Vec3 → Vec3) (l : List Vec3) (init : List ℚ) :
    (l.foldl (fun normals n =>
      let n := normalize n
      normals ++ [n.x, n.y, n.z]) init).length = init.length + 3 * l.length := by
  induction l generalizing init with
  | nil => simp
  | cons a t ih =>
    rw [List.foldl_cons, ih]
    simp
    ring

theorem generate_normals_spec (normalize : Vec3 → Vec3) (chunkWidth chunkHeight : Nat)
    (noise_map vs : List ℚ) (hlen : noise_map.length = chunkWidth * (chunkHeight + 1))
    (hvs : generate_vertices chunkWidth chunkHeight noise_map = some vs) :
    ∃ ns, generate_normals normalize (generate_indices chunkWidth chunkHeight) vs = some ns ∧
      ns.length = 3 * (chunkWidth * (chunkHeight + 1)) := by
  obtain ⟨vs', hvs', hvlen, _⟩ := generate_vertices_spec chunkWidth chunkHeight noise_map hlen
  rw [hvs] at hvs'
  cases hvs'
  have hN : vs.length / 5 = chunkWidth * (chunkHeight + 1) := by omega
  obtain ⟨t, ht, htlen⟩ := foldlM_range_inv
    (fun _ (t : List Vec3) => t.length = chunkWidth * (chunkHeight + 1))
    (normals_step (generate_indices chunkWidth chunkHeight) vs)
    (((generate_indices chunkWidth chunkHeight).length + 2) / 3)
    (fun k s hk hs =>
      normals_step_some chunkWidth chunkHeight noise_map vs hlen hvs k
        (by rw [generate_indices_length] at hk ⊢; omega) s hs)
    (List.replicate (vs.length / 5) (⟨0, 0, 0⟩ : Vec3)) (by simp [hN])
  have hgen : generate_normals normalize (generate_indices chunkWidth chunkHeight) vs =
      some (t.foldl (fun normals n =>
        let n := normalize n
        normals ++ [n.x, n.y, n.z]) []) := by
    unfold generate_normals
    simp only [ht, Option.bind_eq_bind, Option.some_bind, Option.pure_def]
  refine ⟨_, hgen, ?_⟩
  rw [length_push_normals, htlen]
  simp


/-- What one iteration of the `generate_biome` loop does to the state: three
colour floats are pushed, and either no plant is appended, or exactly one, read
from a vertex that passed the height and slope test. -/
theorem biome_step_effect (rand : Nat → Nat) (vertices normals : List ℚ)
    (xOffset yOffset : Int) (st st' : BiomeState) (k : Nat)
    (hs : biome_step rand vertices normals xOffset yOffset st k = some st') :
    st'.colors = st.colors ++ [1, 1, 1] ∧
    (st'.plants = st.plants ∨
      ∃ p : plant, st'.plants = st.plants ++ [p] ∧
        ∃ ny, vertices[5 * k]? = some p.xpos ∧ vertices[5 * k + 1]? = some p.ypos ∧
          vertices[5 * k + 2]? = some p.zpos ∧ normals[3 * k + 1]? = some ny ∧
          (114 : ℚ) / 10 < p.ypos ∧ p.ypos < 70 ∧ (6 : ℚ) / 10 < ny ∧
          p.xOffset = xOffset ∧ p.yOffset = yOffset) := by
  unfold biome_step at hs
  have e : 5 * k / 5 * 3 + 1 = 3 * k + 1 := by omega
  simp only [] at hs
  rw [e] at hs
  cases hh : vertices[5 * k + 1]? with
  | none => simp [hh] at hs
  | some h =>
    cases hn : normals[3 * k + 1]? with
    | none => simp [hh, hn] at hs
    | some ny =>
      simp only [hh, hn, Option.bind_eq_bind, Option.some_bind, Option.pure_def] at hs
      split_ifs at hs with hel hr ht
      · cases hx : vertices[5 * k]? with
        | none => simp [hx] at hs
        | some x =>
          cases hz : vertices[5 * k + 2]? with
          | none => simp [hx, hz] at hs
          | some z =>
            simp only [hx, hz, Option.some_bind] at hs
            cases hs
            refine ⟨rfl, Or.inr ⟨_, rfl, ny, rfl, rfl, rfl, rfl, ?_, ?_, ?_, rfl, rfl⟩⟩
            · have := hel.1; norm_num at this ⊢; linarith
            · exact hel.2.1
            · have := hel.2.2; norm_num at this ⊢; linarith
      · cases hx : vertices[5 * k]? with
        | none => simp [hx] at hs
        | some x =>
          cases hz : vertices[5 * k + 2]? with
          | none => simp [hx, hz] at hs
          | some z =>
            simp only [hx, hz, Option.some_bind] at hs
            cases hs
            refine ⟨rfl, Or.inr ⟨_, rfl, ny, rfl, rfl, rfl, rfl, ?_, ?_, ?_, rfl, rfl⟩⟩
            · have := hel.1; norm_num at this ⊢; linarith
            · exact hel.2.1
            · have := hel.2.2; norm_num at this ⊢; linarith
      · cases hs
        exact ⟨rfl, Or.inl rfl⟩
      · cases hs
        exact ⟨rfl, Or.inl rfl⟩

theorem biome_step_some (rand : Nat → Nat) (vertices normals : List ℚ)
    (xOffset yOffset : Int) (n : Nat) (hv : vertices.length = 5 * n)
    (hn : normals.length = 3 * n) (st : BiomeState) (k : Nat) (hk : k < n) :
    ∃ st', biome_step rand vertices normals xOffset yOffset st k = some st' := by
  have e : 5 * k / 5 * 3 + 1 = 3 * k + 1 := by omega
  have h0 : 5 * k < vertices.length := by omega
  have h1 : 5 * k + 1 < vertices.length := by omega
  have h2 : 5 * k + 2 < vertices.length := by omega
  have h3 : 3 * k + 1 < normals.length := by omega
  unfold biome_step
  simp only []
  rw [e]
  simp only [List.getElem?_eq_getElem h0, List.getElem?_eq_getElem h1,
    List.getElem?_eq_getElem h2, List.getElem?_eq_getElem h3, Option.bind_eq_bind,
    Option.some_bind, Option.pure_def]
  split_ifs <;> exact ⟨_, rfl⟩

theorem generate_biome_some (rand : Nat → Nat) (vertices normals : List ℚ)
    (plants : List plant) (calls : Nat) (xOffset yOffset : Int) (n : Nat)
    (hv : vertices.length = 5 * n) (hn : normals.length = 3 * n) :
    ∃ st, generate_biome rand vertices normals plants calls xOffset yOffset = some st ∧
      st.colors.length = 3 * n := by
  have hcount : (vertices.length + 4) / 5 = n := by omega
  unfold generate_biome
  rw [hcount]
  apply foldlM_range_inv (fun k (st : BiomeState) => st.colors.length = 3 * k)
  · intro k st hk hst
    obtain ⟨st', hst'⟩ := biome_step_some rand vertices normals xOffset yOffset n hv hn st k hk
    refine ⟨st', hst', ?_⟩
    rw [(biome_step_effect rand vertices normals xOffset yOffset st st' k hst').1]
    simp [hst]
    ring
  · rfl

theorem generate_biome_plants (rand : Nat → Nat) (vertices normals : List ℚ)
    (plants : List plant) (calls : Nat) (xOffset yOffset : Int) (st : BiomeState)
    (hs : generate_biome rand vertices normals plants calls xOffset yOffset = some st) :
    ∃ new, st.plants = plants ++ new ∧ ∀ p ∈ new,
      ∃ k ny, vertices[5 * k]? = some p.xpos ∧ vertices[5 * k + 1]? = some p.ypos ∧
        vertices[5 * k + 2]? = some p.zpos ∧ normals[3 * k + 1]? = some ny ∧
        (114 : ℚ) / 10 < p.ypos ∧ p.ypos < 70 ∧ (6 : ℚ) / 10 < ny ∧
        p.xOffset = xOffset ∧ p.yOffset = yOffset := by
  unfold generate_biome at hs
  refine foldlM_some_inv
    (fun (s : BiomeState) => ∃ new, s.plants = plants ++ new ∧ ∀ p ∈ new,
      ∃ k ny, vertices[5 * k]? = some p.xpos ∧ vertices[5 * k + 1]? = some p.ypos ∧
        vertices[5 * k + 2]? = some p.zpos ∧ normals[3 * k + 1]? = some ny ∧
        (114 : ℚ) / 10 < p.ypos ∧ p.ypos < 70 ∧ (6 : ℚ) / 10 < ny ∧
        p.xOffset = xOffset ∧ p.yOffset = yOffset)
    _ _ ?_ _ st ⟨[], by simp, by simp⟩ hs
  rintro s k s' ⟨new, hnew, hall⟩ hstep
  obtain ⟨_, hp | ⟨p, hp, ny, hrest⟩⟩ :=
    biome_step_effect rand vertices normals xOffset yOffset s s' k hstep
  · exact ⟨new, by rw [hp, hnew], hall⟩
  · refine ⟨new ++ [p], by rw [hp, hnew, List.append_assoc], ?_⟩
    intro q hq
    rcases List.mem_append.1 hq with hq | hq
    · exact hall q hq
    · rw [List.mem_singleton.1 hq]
      exact ⟨k, ny, hrest⟩


/-! ## Claims C1 – C3: the mirrored wrap -/

/-- C1: for every integer `c` and every bound `m > 0`, `get_mirrored_coord c m`
lies in the half-open range `[0, m)`. -/
theorem C1_mirrored_coord_in_range (c m : Int) (hm : 0 < m) :
    0 ≤ get_mirrored_coord c m ∧ get_mirrored_coord c m < m :=
  get_mirrored_coord_range c m hm

/-- C1 at `c = -9`, `m = 4`. -/
theorem C1_mirrored_coord_in_range_witness :
    (0 : Int) < 4 ∧ (0 ≤ get_mirrored_coord (-9) 4 ∧ get_mirrored_coord (-9) 4 < 4) :=
  ⟨by decide, C1_mirrored_coord_in_range (-9) 4 (by decide)⟩

/-- C2 as stated fails: with `m = 2` the coordinate `c = -1` wraps to `1`
(through `std::abs`), while `c + 2*m = 3` wraps to `0`. -/
theorem C2_periodicity_counterexample :
    (0 : Int) < 2 ∧ get_mirrored_coord (-1) 2 = 1 ∧ get_mirrored_coord (-1 + 2 * 2) 2 = 0 ∧
      get_mirrored_coord (-1) 2 ≠ get_mirrored_coord (-1 + 2 * 2) 2 := by
  decide

/-- C2 amended: for every bound `m > 0` and integer `c`, the mirrored wrap of
`c` equals that of `c + 2*m` exactly when `c ≥ 0`, `c ≤ -2*m` or `c = -m`. In
particular the wrap is periodic with period `2*m` on the non-negative
coordinates, and it is not on the negative ones above `-2*m` (except `-m`). -/
theorem C2_periodicity_amended (c m : Int) (hm : 0 < m) :
    get_mirrored_coord c m = get_mirrored_coord (c + 2 * m) m ↔
      (0 ≤ c ∨ c ≤ -(2 * m) ∨ c = -m) := by
  by_cases h0 : 0 ≤ c
  · simp [h0, get_mirrored_coord_add_cycle c m h0 hm]
  by_cases h1 : c ≤ -(2 * m)
  · have e : get_mirrored_coord c m = get_mirrored_coord (c + 2 * m) m := by
      have := get_mirrored_coord_add_cycle (-(c + 2 * m)) m (by omega) hm
      rw [show -(c + 2 * m) + 2 * m = -c by ring, get_mirrored_coord_neg,
        get_mirrored_coord_neg] at this
      exact this
    simp [h1, e]
  · rw [← get_mirrored_coord_neg c m, get_mirrored_coord_of_small (-c) m (by omega) (by omega),
      get_mirrored_coord_of_small (c + 2 * m) m (by omega) (by omega)]
    constructor
    · intro h; split_ifs at h <;> omega
    · intro h; split_ifs <;> omega

/-- C2 amended at `c = 9`, `m = 4`. -/
theorem C2_periodicity_amended_witness :
    (0 : Int) < 4 ∧
      (get_mirrored_coord 9 4 = get_mirrored_coord (9 + 2 * 4) 4 ↔
        ((0 : Int) ≤ 9 ∨ (9 : Int) ≤ -(2 * 4) ∨ (9 : Int) = -4)) :=
  ⟨by decide, C2_periodicity_amended 9 4 (by decide)⟩

/-- C3: the mirrored wrap reflects at the image boundary: for every bound
`m > 0`, `get_mirrored_coord (m-1) m = m-1` and `get_mirrored_coord m m = m-1`. -/
theorem C3_reflection_at_boundary (m : Int) (hm : 0 < m) :
    get_mirrored_coord (m - 1) m = m - 1 ∧ get_mirrored_coord m m = m - 1 := by
  rw [get_mirrored_coord_of_small (m - 1) m (by omega) (by omega),
    get_mirrored_coord_of_small m m (by omega) (by omega)]
  constructor <;> split_ifs <;> omega

/-- C3 at `m = 5`. -/
theorem C3_reflection_at_boundary_witness :
    (0 : Int) < 5 ∧ (get_mirrored_coord (5 - 1) 5 = 5 - 1 ∧ get_mirrored_coord 5 5 = 5 - 1) :=
  ⟨by decide, C3_reflection_at_boundary 5 (by decide)⟩

/-! ## Lemmas on the 32-bit sampler -/

theorem wrap32_of_range (n : Int) (h0 : -2147483648 ≤ n) (h1 : n ≤ 2147483647) :
    wrap32 n = n := by
  unfold wrap32
  omega

theorem get_mirrored_coord32_eq (coord maxVal : Int) (hc0 : -2147483647 ≤ coord)
    (hc1 : coord ≤ 2147483647) (hm : 0 < maxVal) (hm2 : 2 * maxVal ≤ 2147483647) :
    get_mirrored_coord32 coord maxVal = get_mirrored_coord coord maxVal := by
  have hr := get_mirrored_coord_range coord maxVal hm
  unfold get_mirrored_coord at hr ⊢
  unfold get_mirrored_coord32
  have habs : wrap32 (coord.natAbs : Int) = (coord.natAbs : Int) :=
    wrap32_of_range _ (by omega) (by omega)
  rw [wrap32_of_range (2 * maxVal) (by omega) hm2, habs]
  simp only at hr ⊢
  split_ifs at hr ⊢ with h
  · exact wrap32_of_range _ (by omega) (by omega)
  · rfl

theorem sample_index32 (hm : Heightmap) (hwf : hm.WellFormed)
    (hW : 2 * hm.hmWidth ≤ 2147483647) (hH : 2 * hm.hmHeight ≤ 2147483647)
    (hWH : hm.hmWidth * hm.hmHeight ≤ 2147483647) (worldX worldY : Int)
    (hx0 : -2147483646 ≤ worldX) (hx1 : worldX ≤ 2147483646)
    (hy0 : -2147483646 ≤ worldY) (hy1 : worldY ≤ 2147483646)
    (ox oy : Int) (hox0 : -1 ≤ ox) (hox1 : ox ≤ 1) (hoy0 : -1 ≤ oy) (hoy1 : oy ≤ 1) :
    wrap32 (get_mirrored_coord32 (wrap32 (worldY + oy)) hm.hmHeight * hm.hmWidth
        + get_mirrored_coord32 (wrap32 (worldX + ox)) hm.hmWidth) =
      get_mirrored_coord (worldY + oy) hm.hmHeight * hm.hmWidth
        + get_mirrored_coord (worldX + ox) hm.hmWidth := by
  obtain ⟨hW0, hH0, hlen⟩ := hwf
  rw [wrap32_of_range (worldY + oy) (by omega) (by omega),
    wrap32_of_range (worldX + ox) (by omega) (by omega),
    get_mirrored_coord32_eq _ _ (by omega) (by omega) hH0 hH,
    get_mirrored_coord32_eq _ _ (by omega) (by omega) hW0 hW]
  obtain ⟨a, b⟩ := sample_index_in_bounds hm ⟨hW0, hH0, hlen⟩ (worldX + ox) (worldY + oy)
  exact wrap32_of_range _ (by omega) (by omega)

theorem get_smooth_height32_eq (hm : Heightmap) (hwf : hm.WellFormed)
    (hW : 2 * hm.hmWidth ≤ 2147483647) (hH : 2 * hm.hmHeight ≤ 2147483647)
    (hWH : hm.hmWidth * hm.hmHeight ≤ 2147483647) (worldX worldY : Int)
    (hx0 : -2147483646 ≤ worldX) (hx1 : worldX ≤ 2147483646)
    (hy0 : -2147483646 ≤ worldY) (hy1 : worldY ≤ 2147483646) :
    get_smooth_height32 hm worldX worldY = get_smooth_height hm worldX worldY := by
  have h := fun ox oy a b c d => sample_index32 hm hwf hW hH hWH worldX worldY hx0 hx1 hy0 hy1
    ox oy a b c d
  unfold get_smooth_height32 get_smooth_height
  simp only [List.foldlM_cons, List.foldlM_nil,
    h (-1) (-1) (by decide) (by decide) (by decide) (by decide),
    h 0 (-1) (by decide) (by decide) (by decide) (by decide),
    h 1 (-1) (by decide) (by decide) (by decide) (by decide),
    h (-1) 0 (by decide) (by decide) (by decide) (by decide),
    h 0 0 (by decide) (by decide) (by decide) (by decide),
    h 1 0 (by decide) (by decide) (by decide) (by decide),
    h (-1) 1 (by decide) (by decide) (by decide) (by decide),
    h 0 1 (by decide) (by decide) (by decide) (by decide),
    h 1 1 (by decide) (by decide) (by decide) (by decide)]

/-! ## Claim C4: the smoothed height -/

/-- C4 as stated fails on 32-bit `int`s: on a 3×3 heightmap at
`worldX = -2147483647`, `worldY = 0`, the neighbour `ox = -1` has the
coordinate `INT_MIN`, whose `std::abs` wraps; `get_mirrored_coord` returns
`-2`, the sample index of the neighbour `(ox, oy) = (-1, 0)` is `-2`, before
the buffer, and the read is out of bounds. -/
theorem C4_smooth_height_counterexample :
    (⟨3, 3, [0, 0, 0, 0, 0, 0, 0, 0, 0]⟩ : Heightmap).WellFormed ∧
    get_mirrored_coord32 (wrap32 (-2147483647 + -1)) 3 = -2 ∧
    wrap32 (get_mirrored_coord32 (wrap32 (0 + 0)) 3 * 3
      + get_mirrored_coord32 (wrap32 (-2147483647 + -1)) 3) = -2 ∧
    get_smooth_height32 ⟨3, 3, [0, 0, 0, 0, 0, 0, 0, 0, 0]⟩ (-2147483647) 0 = none := by
  decide

/-- C4 amended: for a heightmap of width `W > 0` and height `H > 0` with `W*H`
byte samples, where `2*W`, `2*H` and `W*H` fit a 32-bit `int`, and for all
world coordinates with `-2147483646 ≤ worldX, worldY ≤ 2147483646` (no
neighbour coordinate overflows or is `INT_MIN`), every sample index
`get_smooth_height` forms for a neighbour `ox, oy ∈ [-1, 1]` is inside the
buffer, the function returns the arithmetic mean of the nine mirrored-wrapped
neighbours' values divided by 255, and that mean lies in `[0, 1]`. -/
theorem C4_smooth_height_amended (hm : Heightmap) (hwf : hm.WellFormed)
    (hW : 2 * hm.hmWidth ≤ 2147483647) (hH : 2 * hm.hmHeight ≤ 2147483647)
    (hWH : hm.hmWidth * hm.hmHeight ≤ 2147483647) (worldX worldY : Int)
    (hx0 : -2147483646 ≤ worldX) (hx1 : worldX ≤ 2147483646)
    (hy0 : -2147483646 ≤ worldY) (hy1 : worldY ≤ 2147483646) :
    (∀ ox oy : Int, -1 ≤ ox → ox ≤ 1 → -1 ≤ oy → oy ≤ 1 →
      0 ≤ wrap32 (get_mirrored_coord32 (wrap32 (worldY + oy)) hm.hmHeight * hm.hmWidth
            + get_mirrored_coord32 (wrap32 (worldX + ox)) hm.hmWidth) ∧
      wrap32 (get_mirrored_coord32 (wrap32 (worldY + oy)) hm.hmHeight * hm.hmWidth
            + get_mirrored_coord32 (wrap32 (worldX + ox)) hm.hmWidth)
        < (hm.data.length : Int)) ∧
    get_smooth_height32 hm worldX worldY = some (box_mean hm worldX worldY) ∧
    0 ≤ box_mean hm worldX worldY ∧ box_mean hm worldX worldY ≤ 1 := by
  refine ⟨?_, ?_, (box_mean_range hm worldX worldY).1, (box_mean_range hm worldX worldY).2⟩
  · intro ox oy a b c d
    rw [sample_index32 hm hwf hW hH hWH worldX worldY hx0 hx1 hy0 hy1 ox oy a b c d]
    exact sample_index_in_bounds hm hwf (worldX + ox) (worldY + oy)
  · rw [get_smooth_height32_eq hm hwf hW hH hWH worldX worldY hx0 hx1 hy0 hy1]
    exact get_smooth_height_eq hm hwf worldX worldY

/-- C4 amended on a 2×2 heightmap at the world cell `(-3, 7)`. -/
theorem C4_smooth_height_amended_witness :
    ((⟨2, 2, [0, 255, 255, 255]⟩ : Heightmap).WellFormed ∧
      2 * (⟨2, 2, [0, 255, 255, 255]⟩ : Heightmap).hmWidth ≤ 2147483647 ∧
      2 * (⟨2, 2, [0, 255, 255, 255]⟩ : Heightmap).hmHeight ≤ 2147483647 ∧
      (⟨2, 2, [0, 255, 255, 255]⟩ : Heightmap).hmWidth
        * (⟨2, 2, [0, 255, 255, 255]⟩ : Heightmap).hmHeight ≤ 2147483647 ∧
      (-2147483646 : Int) ≤ -3 ∧ (-3 : Int) ≤ 2147483646 ∧
      (-2147483646 : Int) ≤ 7 ∧ (7 : Int) ≤ 2147483646) ∧
    ((∀ ox oy : Int, -1 ≤ ox → ox ≤ 1 → -1 ≤ oy → oy ≤ 1 →
      0 ≤ wrap32 (get_mirrored_coord32 (wrap32 (7 + oy))
              (⟨2, 2, [0, 255, 255, 255]⟩ : Heightmap).hmHeight
              * (⟨2, 2, [0, 255, 255, 255]⟩ : Heightmap).hmWidth
            + get_mirrored_coord32 (wrap32 (-3 + ox))
              (⟨2, 2, [0, 255, 255, 255]⟩ : Heightmap).hmWidth) ∧
      wrap32 (get_mirrored_coord32 (wrap32 (7 + oy))
              (⟨2, 2, [0, 255, 255, 255]⟩ : Heightmap).hmHeight
              * (⟨2, 2, [0, 255, 255, 255]⟩ : Heightmap).hmWidth
            + get_mirrored_coord32 (wrap32 (-3 + ox))
              (⟨2, 2, [0, 255, 255, 255]⟩ : Heightmap).hmWidth)
        < ((⟨2, 2, [0, 255, 255, 255]⟩ : Heightmap).data.length : Int)) ∧
    get_smooth_height32 ⟨2, 2, [0, 255, 255, 255]⟩ (-3) 7
      = some (box_mean ⟨2, 2, [0, 255, 255, 255]⟩ (-3) 7) ∧
    0 ≤ box_mean ⟨2, 2, [0, 255, 255, 255]⟩ (-3) 7 ∧
    box_mean ⟨2, 2, [0, 255, 255, 255]⟩ (-3) 7 ≤ 1) :=
  ⟨⟨by decide, by decide, by decide, by decide, by decide, by decide, by decide, by decide⟩,
    C4_smooth_height_amended ⟨2, 2, [0, 255, 255, 255]⟩ (by decide) (by decide) (by decide)
      (by decide) (-3) 7 (by decide) (by decide) (by decide) (by decide)⟩

/-! ## Claims C5 – C7: noise map and vertex heights -/

/-- C5: flat fallback. Without a heightmap (`heightMapData` null), for every
chunk `(xOffset, yOffset)` `generate_noise_map` returns exactly
`chunkWidth * (chunkHeight + 1)` samples, each of them `0`, and
`generate_vertices` turns them into vertices whose height is `0`. -/
theorem C5_flat_fallback (chunkWidth chunkHeight : Nat) (xOffset yOffset : Int) :
    ∃ nm vs, generate_noise_map none chunkWidth chunkHeight xOffset yOffset = some nm ∧
      nm.length = chunkWidth * (chunkHeight + 1) ∧ (∀ s ∈ nm, s = 0) ∧
      generate_vertices chunkWidth chunkHeight nm = some vs ∧
      vs.length = 5 * (chunkWidth * (chunkHeight + 1)) ∧
      ∀ i, i < chunkWidth * (chunkHeight + 1) → vs[5 * i + 1]? = some 0 := by
  have hlen : (List.replicate (chunkWidth * (chunkHeight + 1)) (0 : ℚ)).length
      = chunkWidth * (chunkHeight + 1) := List.length_replicate _ _
  obtain ⟨vs, hvs, hvlen, hget⟩ := generate_vertices_spec chunkWidth chunkHeight _ hlen
  refine ⟨_, vs, rfl, hlen, fun s hs => List.eq_of_mem_replicate hs, hvs, hvlen, ?_⟩
  intro i hi
  have hw : 0 < chunkWidth := by
    rcases Nat.eq_zero_or_pos chunkWidth with h | h
    · rw [h] at hi; simp at hi
    · exact h
  have hy : i / chunkWidth < chunkHeight + 1 :=
    (Nat.div_lt_iff_lt_mul hw).2 (by rw [Nat.mul_comm]; exact hi)
  have hcell : i % chunkWidth + i / chunkWidth * chunkWidth = i := by
    rw [Nat.mul_comm]; exact Nat.mod_add_div _ _
  have h1 := (hget (i % chunkWidth) (i / chunkWidth) (Nat.mod_lt _ hw) hy).2.1
  rw [hcell] at h1
  have hz : (List.replicate (chunkWidth * (chunkHeight + 1)) (0 : ℚ)).getD i 0 = 0 := by
    rw [List.getD_eq_getElem?_getD, List.getElem?_replicate]
    split <;> rfl
  rw [hz, vertex_height_of_le 0 (by norm_num), Nat.mul_comm i 5] at h1
  exact h1

/-- C6: the height remap of `generate_vertices`,
`h(r) = max(0, r - 0.08)^2 * meshHeight`, is `0` for every raw sample
`r ≤ 0.08`, and is non-decreasing above the threshold: `h(r1) ≤ h(r2)` for
`r1 < r2` both `≥ 0.08`. -/
theorem C6_height_remap (r r1 r2 : ℚ) :
    (r ≤ 0.08 → vertex_height r = 0) ∧
    (0.08 ≤ r1 → 0.08 ≤ r2 → r1 < r2 → vertex_height r1 ≤ vertex_height r2) :=
  ⟨vertex_height_of_le r, fun h1 _ h12 => vertex_height_mono r1 r2 h1 (le_of_lt h12)⟩

/-- C6 at `r = 0.05` and `r1 = 0.5 < r2 = 0.9`. -/
theorem C6_height_remap_witness :
    ((0.05 : ℚ) ≤ 0.08 ∧ vertex_height 0.05 = 0) ∧
    ((0.08 : ℚ) ≤ 0.5 ∧ (0.08 : ℚ) ≤ 0.9 ∧ (0.5 : ℚ) < 0.9 ∧
      vertex_height 0.5 ≤ vertex_height 0.9) :=
  ⟨⟨by norm_num, (C6_height_remap 0.05 0.5 0.9).1 (by norm_num)⟩,
    by norm_num, by norm_num, by norm_num,
    (C6_height_remap 0.05 0.5 0.9).2 (by norm_num) (by norm_num) (by norm_num)⟩

/-- C7: mesh seam continuity. For every heightmap (or none) and all chunk
coordinates `(cx, cy)`, the noise maps and vertex buffers of the chunks
`(cx, cy)`, `(cx+1, cy)` and `(cx, cy+1)` are produced, and for every row
`y ≤ chunkHeight` the sample and the vertex height at column `chunkWidth-1`
of `(cx, cy)` are those at column `0` of `(cx+1, cy)`; for every column
`x < chunkWidth` the sample and the vertex height at row `chunkHeight-1` of
`(cx, cy)` are those at row `0` of `(cx, cy+1)`. -/
theorem C7_seam_continuity (heightMapData : Option Heightmap)
    (hwf : ∀ hm, heightMapData = some hm → hm.WellFormed)
    (chunkWidth chunkHeight : Nat) (hcw : 1 ≤ chunkWidth) (hch : 1 ≤ chunkHeight)
    (cx cy : Int) :
    ∃ na nb nc va vb vc,
      generate_noise_map heightMapData chunkWidth chunkHeight cx cy = some na ∧
      generate_noise_map heightMapData chunkWidth chunkHeight (cx + 1) cy = some nb ∧
      generate_noise_map heightMapData chunkWidth chunkHeight cx (cy + 1) = some nc ∧
      generate_vertices chunkWidth chunkHeight na = some va ∧
      generate_vertices chunkWidth chunkHeight nb = some vb ∧
      generate_vertices chunkWidth chunkHeight nc = some vc ∧
      (∀ y, y ≤ chunkHeight → ∃ s,
        na[(chunkWidth - 1) + y * chunkWidth]? = some s ∧
        nb[0 + y * chunkWidth]? = some s ∧
        va[((chunkWidth - 1) + y * chunkWidth) * 5 + 1]? = some (vertex_height s) ∧
        vb[(0 + y * chunkWidth) * 5 + 1]? = some (vertex_height s)) ∧
      (∀ x, x < chunkWidth → ∃ s,
        na[x + (chunkHeight - 1) * chunkWidth]? = some s ∧
        nc[x + 0 * chunkWidth]? = some s ∧
        va[(x + (chunkHeight - 1) * chunkWidth) * 5 + 1]? = some (vertex_height s) ∧
        vc[(x + 0 * chunkWidth) * 5 + 1]? = some (vertex_height s)) := by
  obtain ⟨na, ha, hal, hag⟩ :=
    generate_noise_map_spec heightMapData hwf chunkWidth chunkHeight cx cy
  obtain ⟨nb, hb, hbl, hbg⟩ :=
    generate_noise_map_spec heightMapData hwf chunkWidth chunkHeight (cx + 1) cy
  obtain ⟨nc, hc, hcl, hcg⟩ :=
    generate_noise_map_spec heightMapData hwf chunkWidth chunkHeight cx (cy + 1)
  obtain ⟨va, hva, _, hvag⟩ := generate_vertices_spec chunkWidth chunkHeight na hal
  obtain ⟨vb, hvb, _, hvbg⟩ := generate_vertices_spec chunkWidth chunkHeight nb hbl
  obtain ⟨vc, hvc, _, hvcg⟩ := generate_vertices_spec chunkWidth chunkHeight nc hcl
  have getD_of : ∀ (l : List ℚ) (i : Nat) (s : ℚ), l[i]? = some s → l.getD i 0 = s := by
    intro l i s h
    simp [List.getD_eq_getElem?_getD, h]
  refine ⟨na, nb, nc, va, vb, vc, ha, hb, hc, hva, hvb, hvc, ?_, ?_⟩
  · intro y hy
    have h1 := hag (chunkWidth - 1) y (by omega) (by omega)
    have h2 := hbg 0 y (by omega) (by omega)
    have hx : (((chunkWidth - 1 : Nat) : Int)) + cx * ((chunkWidth : Int) - 1)
        = ((0 : Nat) : Int) + (cx + 1) * ((chunkWidth : Int) - 1) := by
      rw [Nat.cast_sub hcw]; push_cast; ring
    rw [hx] at h1
    refine ⟨_, h1, h2, ?_, ?_⟩
    · rw [(hvag (chunkWidth - 1) y (by omega) (by omega)).2.1, getD_of _ _ _ h1]
    · rw [(hvbg 0 y (by omega) (by omega)).2.1, getD_of _ _ _ h2]
  · intro x hx
    have h1 := hag x (chunkHeight - 1) hx (by omega)
    have h2 := hcg x 0 hx (by omega)
    have hy : (((chunkHeight - 1 : Nat) : Int)) + cy * ((chunkHeight : Int) - 1)
        = ((0 : Nat) : Int) + (cy + 1) * ((chunkHeight : Int) - 1) := by
      rw [Nat.cast_sub hch]; push_cast; ring
    rw [hy] at h1
    refine ⟨_, h1, h2, ?_, ?_⟩
    · rw [(hvag x (chunkHeight - 1) hx (by omega)).2.1, getD_of _ _ _ h1]
    · rw [(hvcg x 0 hx (by omega)).2.1, getD_of _ _ _ h2]


/-- C7 on a 2×2 heightmap with 3×2 chunks at chunk `(1, -2)`. -/
theorem C7_seam_continuity_witness :
    (∀ hm, some (⟨2, 2, [0, 255, 255, 255]⟩ : Heightmap) = some hm → hm.WellFormed) ∧
    1 ≤ 3 ∧ 1 ≤ 2 ∧
    ∃ na nb nc va vb vc,
      generate_noise_map (some ⟨2, 2, [0, 255, 255, 255]⟩) 3 2 1 (-2) = some na ∧
      generate_noise_map (some ⟨2, 2, [0, 255, 255, 255]⟩) 3 2 (1 + 1) (-2) = some nb ∧
      generate_noise_map (some ⟨2, 2, [0, 255, 255, 255]⟩) 3 2 1 (-2 + 1) = some nc ∧
      generate_vertices 3 2 na = some va ∧
      generate_vertices 3 2 nb = some vb ∧
      generate_vertices 3 2 nc = some vc ∧
      (∀ y, y ≤ 2 → ∃ s,
        na[(3 - 1) + y * 3]? = some s ∧
        nb[0 + y * 3]? = some s ∧
        va[((3 - 1) + y * 3) * 5 + 1]? = some (vertex_height s) ∧
        vb[(0 + y * 3) * 5 + 1]? = some (vertex_height s)) ∧
      (∀ x, x < 3 → ∃ s,
        na[x + (2 - 1) * 3]? = some s ∧
        nc[x + 0 * 3]? = some s ∧
        va[(x + (2 - 1) * 3) * 5 + 1]? = some (vertex_height s) ∧
        vc[(x + 0 * 3) * 5 + 1]? = some (vertex_height s)) :=
  ⟨fun hm h => by cases h; decide, by decide, by decide,
    C7_seam_continuity (some ⟨2, 2, [0, 255, 255, 255]⟩) (fun hm h => by cases h; decide)
      3 2 (by decide) (by decide) 1 (-2)⟩

/-! ## Claims C8 – C9: buffer sizes and winding -/

/-- C8: for all chunk dimensions `chunkWidth ≥ 1`, `chunkHeight ≥ 1`, a chunk
is generated and has `chunkWidth * (chunkHeight + 1)` vertices
(`generate_vertices`: 5 floats each, `generate_normals`: 3 floats each,
`generate_biome`: 3 colour floats each) and
`(chunkWidth - 1) * (chunkHeight - 1) * 2` triangles (`generate_indices`: 3
indices each). -/
theorem C8_chunk_buffer_sizes (normalize : Vec3 → Vec3) (rand : Nat → Nat)
    (heightMapData : Option Heightmap)
    (hwf : ∀ hm, heightMapData = some hm → hm.WellFormed)
    (chunkWidth chunkHeight : Nat) (hcw : 1 ≤ chunkWidth) (hch : 1 ≤ chunkHeight)
    (xOffset yOffset : Int) (plants : List plant) (calls : Nat) :
    ∃ chunk, generate_map_chunk normalize rand heightMapData chunkWidth chunkHeight
        xOffset yOffset plants calls = some chunk ∧
      chunk.indices = generate_indices chunkWidth chunkHeight ∧
      chunk.vertices.length = 5 * (chunkWidth * (chunkHeight + 1)) ∧
      chunk.normals.length = 3 * (chunkWidth * (chunkHeight + 1)) ∧
      chunk.colors.length = 3 * (chunkWidth * (chunkHeight + 1)) ∧
      (chunk.indices.length : Int)
        = 3 * (((chunkWidth : Int) - 1) * ((chunkHeight : Int) - 1) * 2) := by
  obtain ⟨nm, hnm, hlen, _⟩ :=
    generate_noise_map_spec heightMapData hwf chunkWidth chunkHeight xOffset yOffset
  obtain ⟨vs, hvs, hvlen, _⟩ := generate_vertices_spec chunkWidth chunkHeight nm hlen
  obtain ⟨ns, hns, hnlen⟩ :=
    generate_normals_spec normalize chunkWidth chunkHeight nm vs hlen hvs
  obtain ⟨st, hst, hclen⟩ := generate_biome_some rand vs ns plants calls xOffset yOffset
    (chunkWidth * (chunkHeight + 1)) hvlen hnlen
  refine ⟨⟨generate_indices chunkWidth chunkHeight, vs, ns, st.colors, st.plants, st.calls⟩,
    ?_, rfl, hvlen, hnlen, hclen, ?_⟩
  · unfold generate_map_chunk
    simp only [hnm, hvs, hns, hst, Option.bind_eq_bind, Option.some_bind, Option.pure_def]
  · show ((generate_indices chunkWidth chunkHeight).length : Int) = _
    rw [generate_indices_length]
    push_cast [Nat.cast_sub hcw, Nat.cast_sub hch]
    ring

/-- C8 for 3×3 chunks on a 2×2 heightmap. -/
theorem C8_chunk_buffer_sizes_witness :
    (∀ hm, some (⟨2, 2, [0, 255, 255, 255]⟩ : Heightmap) = some hm → hm.WellFormed) ∧
    1 ≤ 3 ∧ 1 ≤ 3 ∧
    ∃ chunk, generate_map_chunk id (fun n => n) (some ⟨2, 2, [0, 255, 255, 255]⟩) 3 3
        0 0 [] 0 = some chunk ∧
      chunk.indices = generate_indices 3 3 ∧
      chunk.vertices.length = 5 * (3 * (3 + 1)) ∧
      chunk.normals.length = 3 * (3 * (3 + 1)) ∧
      chunk.colors.length = 3 * (3 * (3 + 1)) ∧
      (chunk.indices.length : Int) = 3 * ((((3 : Nat) : Int) - 1) * (((3 : Nat) : Int) - 1) * 2) :=
  ⟨fun hm h => by cases h; decide, by decide, by decide,
    C8_chunk_buffer_sizes id (fun n => n) (some ⟨2, 2, [0, 255, 255, 255]⟩)
      (fun hm h => by cases h; decide) 3 3 (by decide) (by decide) 0 0 [] 0⟩

/-- C9: winding consistency. For every noise map of the chunk's size (a flat
one in particular), `generate_vertices` produces the vertex buffer, and every
triangle `k` emitted by `generate_indices` reads three vertices of it whose
face normal `cross(v2 - v1, v3 - v1)`, in emitted order, has a non-negative,
indeed strictly positive, up-component. -/
theorem C9_winding_upward (chunkWidth chunkHeight : Nat) (noise_map : List ℚ)
    (hlen : noise_map.length = chunkWidth * (chunkHeight + 1)) :
    ∃ vs, generate_vertices chunkWidth chunkHeight noise_map = some vs ∧
      ∀ k, 3 * k < (generate_indices chunkWidth chunkHeight).length →
        ∃ i1 i2 i3 n,
          (generate_indices chunkWidth chunkHeight)[3 * k]? = some i1 ∧
          (generate_indices chunkWidth chunkHeight)[3 * k + 1]? = some i2 ∧
          (generate_indices chunkWidth chunkHeight)[3 * k + 2]? = some i3 ∧
          face_normal vs i1 i2 i3 = some n ∧ 0 ≤ n.y ∧ 0 < n.y := by
  obtain ⟨vs, hvs, _, _⟩ := generate_vertices_spec chunkWidth chunkHeight noise_map hlen
  refine ⟨vs, hvs, ?_⟩
  intro k hk
  obtain ⟨a, b, c, n, _, _, _, h0, h1, h2, hf, hy⟩ :=
    face_normal_triangle chunkWidth chunkHeight noise_map vs hlen hvs k hk
  exact ⟨_, _, _, n, h0, h1, h2, hf, by rw [hy]; norm_num, by rw [hy]; norm_num⟩

/-- C9 for a flat 3×3 chunk (all twelve samples `1/2`). -/
theorem C9_winding_upward_witness :
    (List.replicate 12 ((1 : ℚ) / 2)).length = 3 * (3 + 1) ∧
    ∃ vs, generate_vertices 3 3 (List.replicate 12 ((1 : ℚ) / 2)) = some vs ∧
      ∀ k, 3 * k < (generate_indices 3 3).length →
        ∃ i1 i2 i3 n,
          (generate_indices 3 3)[3 * k]? = some i1 ∧
          (generate_indices 3 3)[3 * k + 1]? = some i2 ∧
          (generate_indices 3 3)[3 * k + 2]? = some i3 ∧
          face_normal vs i1 i2 i3 = some n ∧ 0 ≤ n.y ∧ 0 < n.y :=
  ⟨by decide, C9_winding_upward 3 3 (List.replicate 12 ((1 : ℚ) / 2)) (by decide)⟩


/-! ## Claim C10: vegetation eligibility -/

/-- C10: vegetation eligibility. For every vertex and normal buffer and every
sequence of random draws: `generate_biome` returns when the buffers hold `n`
vertices; whenever it returns, the `plants` vector is the old one followed by
new plants, each read from a vertex `k` whose height is strictly above
`WATER_HEIGHT` and strictly below the tree line `70` and whose normal has an
up-component strictly greater than `0.6`; and an iteration on a vertex whose
height is exactly `WATER_HEIGHT`, or at or above `70`, appends no plant
whatever the normal and the draws. -/
theorem C10_vegetation_eligibility (rand : Nat → Nat) (vertices normals : List ℚ)
    (plants : List plant) (calls : Nat) (xOffset yOffset : Int) :
    (∀ n, vertices.length = 5 * n → normals.length = 3 * n →
      ∃ st, generate_biome rand vertices normals plants calls xOffset yOffset = some st) ∧
    (∀ st, generate_biome rand vertices normals plants calls xOffset yOffset = some st →
      ∃ new, st.plants = plants ++ new ∧ ∀ p ∈ new,
        ∃ (k : Nat) (ny : ℚ), vertices[5 * k]? = some p.xpos ∧
          vertices[5 * k + 1]? = some p.ypos ∧
          vertices[5 * k + 2]? = some p.zpos ∧ normals[3 * k + 1]? = some ny ∧
          WATER_HEIGHT < p.ypos ∧ p.ypos < 70 ∧ (0.6 : ℚ) < ny) ∧
    (∀ (s s' : BiomeState) (k : Nat) (h : ℚ), vertices[5 * k + 1]? = some h →
      (h = WATER_HEIGHT ∨ 70 ≤ h) →
      biome_step rand vertices normals xOffset yOffset s k = some s' →
      s'.plants = s.plants) := by
  refine ⟨?_, ?_, ?_⟩
  · intro n hv hn
    obtain ⟨st, hst, _⟩ :=
      generate_biome_some rand vertices normals plants calls xOffset yOffset n hv hn
    exact ⟨st, hst⟩
  · intro st hst
    obtain ⟨new, hnew, hall⟩ :=
      generate_biome_plants rand vertices normals plants calls xOffset yOffset st hst
    refine ⟨new, hnew, ?_⟩
    intro p hp
    obtain ⟨k, ny, h0, h1, h2, h3, hlo, hhi, hny, _, _⟩ := hall p hp
    refine ⟨k, ny, h0, h1, h2, h3, ?_, hhi, ?_⟩
    · unfold WATER_HEIGHT; norm_num at hlo ⊢; linarith
    · norm_num at hny ⊢; linarith
  · intro s s' k h hh hcase hstep
    obtain ⟨_, hp | ⟨p, _, ny, _, h1, _, _, hlo, hhi, _⟩⟩ :=
      biome_step_effect rand vertices normals xOffset yOffset s s' k hstep
    · exact hp
    · exfalso
      rw [hh] at h1
      cases h1
      rcases hcase with hw | ht
      · rw [hw] at hlo; unfold WATER_HEIGHT at hlo; norm_num at hlo
      · linarith

/-- C10 on one eligible vertex of height `20` with an upward normal, and on a
vertex exactly at the water level with the same normal and draws. -/
theorem C10_vegetation_eligibility_witness :
    (∃ st, generate_biome (fun _ => 0) [3, 20, 4, 0, 0] [0, 1, 0] [] 0 2 5 = some st) ∧
    (∃ s', biome_step (fun _ => 0) [3, WATER_HEIGHT, 4, 0, 0] [0, 1, 0] 2 5 ⟨[], [], 0⟩ 0
        = some s' ∧ s'.plants = []) :=
  have hstep : biome_step (fun _ => 0) [3, WATER_HEIGHT, 4, 0, 0] [0, 1, 0] 2 5 ⟨[], [], 0⟩ 0
      = some ⟨[1, 1, 1], [], 0⟩ := by
    norm_num [biome_step, WATER_HEIGHT]
  ⟨(C10_vegetation_eligibility (fun _ => 0) [3, 20, 4, 0, 0] [0, 1, 0] [] 0 2 5).1 1 rfl rfl,
    ⟨_, hstep,
      (C10_vegetation_eligibility (fun _ => 0) [3, WATER_HEIGHT, 4, 0, 0] [0, 1, 0] [] 0 2 5).2.2
        _ _ 0 WATER_HEIGHT rfl (Or.inl rfl) hstep⟩⟩


/-! ## Lemmas on truncation and the full-map fold -/

theorem float_to_int_of_nonneg (f : ℚ) (h : 0 ≤ f) : float_to_int f = ⌊f⌋ := by
  unfold float_to_int
  rw [Int.tdiv_eq_ediv (Rat.num_nonneg.2 h) (by positivity), Rat.floor_def]

theorem float_to_int_neg (f : ℚ) : float_to_int (-f) = -float_to_int f := by
  unfold float_to_int
  rw [Rat.neg_num, Rat.neg_den, Int.neg_tdiv]

theorem float_to_int_intCast (n : Int) : float_to_int (n : ℚ) = n := by
  unfold float_to_int
  simp

theorem fmod_two_range (a : ℚ) (h : 0 ≤ a) : 0 ≤ fmod a 2 ∧ fmod a 2 < 2 := by
  unfold fmod
  rw [float_to_int_of_nonneg _ (by positivity)]
  have h1 := Int.floor_le (a / 2)
  have h2 := Int.lt_floor_add_one (a / 2)
  constructor <;> linarith

theorem fold_uv_range (u : ℚ) : 0 ≤ fold_uv u ∧ fold_uv u ≤ 1 := by
  unfold fold_uv
  obtain ⟨h0, h2⟩ := fmod_two_range |u| (abs_nonneg u)
  simp only
  split_ifs with h
  · constructor <;> linarith
  · exact ⟨h0, le_of_not_gt h⟩

theorem fmod_two_eq (a : ℚ) (n : Int) (r : ℚ) (h : a = 2 * n + r) (h0 : 0 ≤ r) (h2 : r < 2)
    (hn : 0 ≤ n) : fmod a 2 = r := by
  have ha : 0 ≤ a := by rw [h]; have : (0 : ℚ) ≤ n := by exact_mod_cast hn
                        linarith
  unfold fmod
  rw [float_to_int_of_nonneg _ (by positivity)]
  have hfl : ⌊a / 2⌋ = n := by
    rw [Int.floor_eq_iff]
    constructor
    · rw [h]; linarith
    · rw [h]; linarith
  rw [hfl, h]
  ring


theorem full_map_uv_scaled (c W : Int) (hW : 0 < W) :
    (W : ℚ) * full_map_uv (c : ℚ) W =
      if |c| % (2 * W) < W then ((get_mirrored_coord c W : Int) : ℚ)
      else ((get_mirrored_coord c W + 1 : Int) : ℚ) := by
  have hWq : (0 : ℚ) < (W : ℚ) := by exact_mod_cast hW
  have hv0 : 0 ≤ |c| % (2 * W) := Int.emod_nonneg _ (by omega)
  have hv2 : |c| % (2 * W) < 2 * W := Int.emod_lt_of_pos _ (by omega)
  have hn : 0 ≤ |c| / (2 * W) := Int.ediv_nonneg (abs_nonneg c) (by omega)
  have hdecomp : |c| = 2 * W * (|c| / (2 * W)) + |c| % (2 * W) :=
    (Int.ediv_add_emod |c| (2 * W)).symm
  have hq : |(c : ℚ)| = 2 * (W : ℚ) * ((|c| / (2 * W) : Int) : ℚ)
      + ((|c| % (2 * W) : Int) : ℚ) := by
    have : ((|c| : Int) : ℚ) = |(c : ℚ)| := by push_cast; rfl
    rw [← this]
    exact_mod_cast hdecomp
  have hv0q : (0 : ℚ) ≤ ((|c| % (2 * W) : Int) : ℚ) := by exact_mod_cast hv0
  have hv2q : ((|c| % (2 * W) : Int) : ℚ) < 2 * (W : ℚ) := by exact_mod_cast hv2
  have hfm : fmod |(c : ℚ) / (W : ℚ)| 2 = ((|c| % (2 * W) : Int) : ℚ) / (W : ℚ) := by
    apply fmod_two_eq _ (|c| / (2 * W)) _ _ (by positivity) _ hn
    · rw [abs_div, abs_of_pos hWq, hq]
      field_simp
      ring
    · rw [div_lt_iff₀ hWq]; linarith
  have hfold : full_map_uv (c : ℚ) W =
      if ((|c| % (2 * W) : Int) : ℚ) / (W : ℚ) > 1
      then 2 - ((|c| % (2 * W) : Int) : ℚ) / (W : ℚ)
      else ((|c| % (2 * W) : Int) : ℚ) / (W : ℚ) := by
    unfold full_map_uv fold_uv
    simp only [hfm]
  have hg := get_mirrored_coord_eq_emod c W hW
  rw [hfold]
  by_cases hlt : |c| % (2 * W) < W
  · have hltq : ((|c| % (2 * W) : Int) : ℚ) < (W : ℚ) := by exact_mod_cast hlt
    have h1 : ¬ (((|c| % (2 * W) : Int) : ℚ) / (W : ℚ) > 1) := by
      rw [gt_iff_lt, lt_div_iff₀ hWq]; linarith
    rw [if_neg (not_le.2 hlt)] at hg
    rw [if_neg h1, if_pos hlt, hg]
    field_simp
  · have hge : W ≤ |c| % (2 * W) := not_lt.1 hlt
    have hgeq : (W : ℚ) ≤ ((|c| % (2 * W) : Int) : ℚ) := by exact_mod_cast hge
    rw [if_pos hge] at hg
    rw [if_neg hlt, hg]
    by_cases heq : |c| % (2 * W) = W
    · have h1 : ¬ (((|c| % (2 * W) : Int) : ℚ) / (W : ℚ) > 1) := by
        rw [heq, div_self (ne_of_gt hWq)]; exact lt_irrefl _
      rw [if_neg h1, heq]
      field_simp
      ring
    · have hgt : W < |c| % (2 * W) := lt_of_le_of_ne hge (Ne.symm heq)
      have hgtq : (W : ℚ) < ((|c| % (2 * W) : Int) : ℚ) := by exact_mod_cast hgt
      have h1 : ((|c| % (2 * W) : Int) : ℚ) / (W : ℚ) > 1 := by
        rw [gt_iff_lt, lt_div_iff₀ hWq]; linarith
      rw [if_pos h1]
      field_simp
      ring

theorem full_map_uv_times (k : ℚ) (W : Int) (hW : 0 < W) :
    full_map_uv (k * (W : ℚ)) W = fold_uv k := by
  have hWq : (W : ℚ) ≠ 0 := by exact_mod_cast (ne_of_gt hW)
  unfold full_map_uv
  rw [mul_div_assoc, div_self hWq, mul_one]

theorem fold_uv_example_a : fold_uv 2.3 = 0.3 := by
  unfold fold_uv
  have h : fmod |(2.3 : ℚ)| 2 = 0.3 :=
    fmod_two_eq _ 1 0.3 (by rw [abs_of_pos (by norm_num)]; norm_num) (by norm_num)
      (by norm_num) (by norm_num)
  simp only [h]
  norm_num

theorem fold_uv_example_b : fold_uv 1.7 = 0.3 := by
  unfold fold_uv
  have h : fmod |(1.7 : ℚ)| 2 = 1.7 :=
    fmod_two_eq _ 0 1.7 (by rw [abs_of_pos (by norm_num)]; norm_num) (by norm_num)
      (by norm_num) (by norm_num)
  simp only [h]
  norm_num


/-! ## Lemmas on the camera's chunk coordinate -/

theorem float_to_int_bounds (f : ℚ) (a b : Int) (ha : (a : ℚ) ≤ f) (hb : f ≤ (b : ℚ)) :
    a ≤ float_to_int f ∧ float_to_int f ≤ b := by
  by_cases h : 0 ≤ f
  · rw [float_to_int_of_nonneg f h]
    refine ⟨Int.le_floor.2 ha, ?_⟩
    have : ((⌊f⌋ : Int) : ℚ) ≤ (b : ℚ) := le_trans (Int.floor_le f) hb
    exact_mod_cast this
  · have hneg : 0 ≤ -f := by linarith
    have e : float_to_int f = -⌊-f⌋ := by
      have := float_to_int_neg (-f)
      rw [neg_neg] at this
      rw [this, float_to_int_of_nonneg (-f) hneg]
    rw [e, Int.floor_neg, neg_neg]
    refine ⟨?_, Int.ceil_le.2 hb⟩
    have : (a : ℚ) ≤ ((⌈f⌉ : Int) : ℚ) := le_trans ha (Int.le_ceil f)
    exact_mod_cast this

theorem tdiv_127_bounds (t : Int) (h0 : -1270 ≤ t) (h1 : t ≤ 1250) :
    -10 ≤ Int.tdiv t 127 ∧ Int.tdiv t 127 ≤ 9 := by
  by_cases h : 0 ≤ t
  · rw [Int.tdiv_eq_ediv h (by decide)]
    omega
  · have e : Int.tdiv t 127 = -((-t) / 127) := by
      have := Int.neg_tdiv (-t) 127
      rw [neg_neg] at this
      rw [this, Int.tdiv_eq_ediv (by omega) (by decide)]
    rw [e]
    omega

theorem grid_pos_range (cam : ℚ) (h0 : (-63.5 : ℚ) ≤ cam) (h1 : cam ≤ -63.5 + 126 * 20) :
    0 ≤ Int.tdiv (float_to_int (cam - 1206.5)) 127 + Int.tdiv 20 2 ∧
    Int.tdiv (float_to_int (cam - 1206.5)) 127 + Int.tdiv 20 2 < 20 := by
  obtain ⟨a, b⟩ := float_to_int_bounds (cam - 1206.5) (-1270) 1250
    (by push_cast; linarith) (by push_cast; linarith)
  obtain ⟨c, d⟩ := tdiv_127_bounds _ a b
  have e : Int.tdiv 20 2 = 10 := by decide
  rw [e]
  constructor <;> omega

theorem originX_compiled : originX compiled_config = 1206.5 := by
  norm_num [originX, compiled_config]

theorem originY_compiled : originY compiled_config = 1206.5 := by
  norm_num [originY, compiled_config]

theorem gridPosX_at_zero : gridPosX compiled_config 0 = 1 := by
  unfold gridPosX
  rw [originX_compiled]
  have e : float_to_int ((0 : ℚ) - 1206.5) = -1206 := by
    unfold float_to_int
    have hn : ((0 : ℚ) - 1206.5).num = -2413 := by norm_num
    have hd : ((0 : ℚ) - 1206.5).den = 2 := by norm_num
    rw [hn, hd]
    decide
  rw [e]
  decide

/-! ## Lemmas on the M-key toggle -/

theorem run_frames_append (s : MapToggle) (pre : List Bool) (p : Bool) :
    run_frames s (pre ++ [p]) = processInput_M (run_frames s pre) p := by
  unfold run_frames
  rw [List.foldl_append]
  rfl

theorem mKeyPressed_after (s : MapToggle) (pre : List Bool) :
    (run_frames s pre).mKeyPressed = pre.getLast?.getD s.mKeyPressed := by
  induction pre using List.reverseRecOn with
  | nil => rfl
  | append_singleton l p _ =>
    rw [run_frames_append, List.getLast?_append]
    unfold processInput_M
    cases p <;> simp
    split <;> simp_all

theorem run_frames_hold (s : MapToggle) (h : s.mKeyPressed = false) (n : Nat) :
    run_frames s (List.replicate (n + 1) true) = ⟨!s.showFullMap, true⟩ := by
  induction n with
  | zero => simp [run_frames, processInput_M, h]
  | succ n ih =>
    rw [List.replicate_succ', run_frames_append, ih]
    simp [processInput_M]

/-! ## Lemmas on the flat 3×3 chunk -/

theorem generate_indices_3_3 :
    generate_indices 3 3 =
      [0, 3, 4, 0, 4, 1, 1, 4, 5, 1, 5, 2, 3, 6, 7, 3, 7, 4, 4, 7, 8, 4, 8, 5] := by
  decide

/-- On a 3×3 chunk all of whose vertices have the same height, a triangle
whose x/z footprint has signed area `1/2` has the face normal `(0, 1, 0)`. -/
theorem face_normal_flat (vs : List ℚ) (h : ℚ)
    (hread : ∀ i : Int, 0 ≤ i → i < 12 →
      read_vertex vs i = some ⟨((i % 3 : Int) : ℚ), h, ((i / 3 : Int) : ℚ)⟩)
    (a b c : Int) (a0 : 0 ≤ a) (a1 : a < 12) (b0 : 0 ≤ b) (b1 : b < 12) (c0 : 0 ≤ c)
    (c1 : c < 12)
    (hy : (b / 3 - a / 3) * (c % 3 - a % 3) - (c / 3 - a / 3) * (b % 3 - a % 3) = 1) :
    face_normal vs a b c = some ⟨0, 1, 0⟩ := by
  unfold face_normal
  rw [hread a a0 a1, hread b b0 b1, hread c c0 c1]
  simp only [Option.bind_eq_bind, Option.some_bind, Option.pure_def, Vec3.cross, Vec3.sub,
    Option.some.injEq, Vec3.mk.injEq]
  refine ⟨by ring, ?_, by ring⟩
  have : (((b / 3 - a / 3) * (c % 3 - a % 3) - (c / 3 - a / 3) * (b % 3 - a % 3) : Int) : ℚ)
      = 1 := by rw [hy]; norm_num
  push_cast at this
  linarith

theorem normals_step_of (indices : List Int) (vertices : List ℚ) (t t1 t2 t3 : List Vec3)
    (k : Nat) (a b c : Int) (n : Vec3) (h0 : indices[3 * k]? = some a)
    (h1 : indices[3 * k + 1]? = some b) (h2 : indices[3 * k + 2]? = some c)
    (hf : face_normal vertices a b c = some n) (e1 : accumulate t a n = some t1)
    (e2 : accumulate t1 b n = some t2) (e3 : accumulate t2 c n = some t3) :
    normals_step indices vertices t k = some t3 := by
  unfold normals_step
  rw [h0, h1, h2]
  simp only [Option.bind_eq_bind, Option.some_bind, hf, e1, e2, e3]

theorem normals_step_flat_0 (vs : List ℚ) (h : ℚ)
    (hread : ∀ i : Int, 0 ≤ i → i < 12 →
      read_vertex vs i = some ⟨((i % 3 : Int) : ℚ), h, ((i / 3 : Int) : ℚ)⟩) :
    normals_step [0, 3, 4, 0, 4, 1, 1, 4, 5, 1, 5, 2, 3, 6, 7, 3, 7, 4, 4, 7, 8, 4, 8, 5] vs
      [⟨0, 0, 0⟩, ⟨0, 0, 0⟩, ⟨0, 0, 0⟩, ⟨0, 0, 0⟩, ⟨0, 0, 0⟩, ⟨0, 0, 0⟩,
        ⟨0, 0, 0⟩, ⟨0, 0, 0⟩, ⟨0, 0, 0⟩, ⟨0, 0, 0⟩, ⟨0, 0, 0⟩, ⟨0, 0, 0⟩] 0
    = some [⟨0, 1, 0⟩, ⟨0, 0, 0⟩, ⟨0, 0, 0⟩, ⟨0, 1, 0⟩, ⟨0, 1, 0⟩, ⟨0, 0, 0⟩,
        ⟨0, 0, 0⟩, ⟨0, 0, 0⟩, ⟨0, 0, 0⟩, ⟨0, 0, 0⟩, ⟨0, 0, 0⟩, ⟨0, 0, 0⟩] := by
  refine normals_step_of _ vs _
      [⟨0, 1, 0⟩, ⟨0, 0, 0⟩, ⟨0, 0, 0⟩, ⟨0, 0, 0⟩, ⟨0, 0, 0⟩, ⟨0, 0, 0⟩,
        ⟨0, 0, 0⟩, ⟨0, 0, 0⟩, ⟨0, 0, 0⟩, ⟨0, 0, 0⟩, ⟨0, 0, 0⟩, ⟨0, 0, 0⟩]
      [⟨0, 1, 0⟩, ⟨0, 0, 0⟩, ⟨0, 0, 0⟩, ⟨0, 1, 0⟩, ⟨0, 0, 0⟩, ⟨0, 0, 0⟩,
        ⟨0, 0, 0⟩, ⟨0, 0, 0⟩, ⟨0, 0, 0⟩, ⟨0, 0, 0⟩, ⟨0, 0, 0⟩, ⟨0, 0, 0⟩]
      _ 0 0 3 4 ⟨0, 1, 0⟩ (by decide) (by decide) (by decide)
    (face_normal_flat vs h hread 0 3 4 (by decide) (by decide) (by decide) (by decide)
      (by decide) (by decide) (by decide)) ?_ ?_ ?_ <;>
  · simp [accumulate, readAt, Vec3.add]
    try norm_num

theorem normals_step_flat_1 (vs : List ℚ) (h : ℚ)
    (hread : ∀ i : Int, 0 ≤ i → i < 12 →
      read_vertex vs i = some ⟨((i % 3 : Int) : ℚ), h, ((i / 3 : Int) : ℚ)⟩) :
    normals_step [0, 3, 4, 0, 4, 1, 1, 4, 5, 1, 5, 2, 3, 6, 7, 3, 7, 4, 4, 7, 8, 4, 8, 5] vs
      [⟨0, 1, 0⟩, ⟨0, 0, 0⟩, ⟨0, 0, 0⟩, ⟨0, 1, 0⟩, ⟨0, 1, 0⟩, ⟨0, 0, 0⟩,
        ⟨0, 0, 0⟩, ⟨0, 0, 0⟩, ⟨0, 0, 0⟩, ⟨0, 0, 0⟩, ⟨0, 0, 0⟩, ⟨0, 0, 0⟩] 1
    = some [⟨0, 2, 0⟩, ⟨0, 1, 0⟩, ⟨0, 0, 0⟩, ⟨0, 1, 0⟩, ⟨0, 2, 0⟩, ⟨0, 0, 0⟩,
        ⟨0, 0, 0⟩, ⟨0, 0, 0⟩, ⟨0, 0, 0⟩, ⟨0, 0, 0⟩, ⟨0, 0, 0⟩, ⟨0, 0, 0⟩] := by
  refine normals_step_of _ vs _
      [⟨0, 2, 0⟩, ⟨0, 0, 0⟩, ⟨0, 0, 0⟩, ⟨0, 1, 0⟩, ⟨0, 1, 0⟩, ⟨0, 0, 0⟩,
        ⟨0, 0, 0⟩, ⟨0, 0, 0⟩, ⟨0, 0, 0⟩, ⟨0, 0, 0⟩, ⟨0, 0, 0⟩, ⟨0, 0, 0⟩]
      [⟨0, 2, 0⟩, ⟨0, 0, 0⟩, ⟨0, 0, 0⟩, ⟨0, 1, 0⟩, ⟨0, 2, 0⟩, ⟨0, 0, 0⟩,
        ⟨0, 0, 0⟩, ⟨0, 0, 0⟩, ⟨0, 0, 0⟩, ⟨0, 0, 0⟩, ⟨0, 0, 0⟩, ⟨0, 0, 0⟩]
      _ 1 0 4 1 ⟨0, 1, 0⟩ (by decide) (by decide) (by decide)
    (face_normal_flat vs h hread 0 4 1 (by decide) (by decide) (by decide) (by decide)
      (by decide) (by decide) (by decide)) ?_ ?_ ?_ <;>
  · simp [accumulate, readAt, Vec3.add]
    try norm_num

theorem normals_step_flat_2 (vs : List ℚ) (h : ℚ)
    (hread : ∀ i : Int, 0 ≤ i → i < 12 →
      read_vertex vs i = some ⟨((i % 3 : Int) : ℚ), h, ((i / 3 : Int) : ℚ)⟩) :
    normals_step [0, 3, 4, 0, 4, 1, 1, 4, 5, 1, 5, 2, 3, 6, 7, 3, 7, 4, 4, 7, 8, 4, 8, 5] vs
      [⟨0, 2, 0⟩, ⟨0, 1, 0⟩, ⟨0, 0, 0⟩, ⟨0, 1, 0⟩, ⟨0, 2, 0⟩, ⟨0, 0, 0⟩,
        ⟨0, 0, 0⟩, ⟨0, 0, 0⟩, ⟨0, 0, 0⟩, ⟨0, 0, 0⟩, ⟨0, 0, 0⟩, ⟨0, 0, 0⟩] 2
    = some [⟨0, 2, 0⟩, ⟨0, 2, 0⟩, ⟨0, 0, 0⟩, ⟨0, 1, 0⟩, ⟨0, 3, 0⟩, ⟨0, 1, 0⟩,
        ⟨0, 0, 0⟩, ⟨0, 0, 0⟩, ⟨0, 0, 0⟩, ⟨0, 0, 0⟩, ⟨0, 0, 0⟩, ⟨0, 0, 0⟩] := by
  refine normals_step_of _ vs _
      [⟨0, 2, 0⟩, ⟨0, 2, 0⟩, ⟨0, 0, 0⟩, ⟨0, 1, 0⟩, ⟨0, 2, 0⟩, ⟨0, 0, 0⟩,
        ⟨0, 0, 0⟩, ⟨0, 0, 0⟩, ⟨0, 0, 0⟩, ⟨0, 0, 0⟩, ⟨0, 0, 0⟩, ⟨0, 0, 0⟩]
      [⟨0, 2, 0⟩, ⟨0, 2, 0⟩, ⟨0, 0, 0⟩, ⟨0, 1, 0⟩, ⟨0, 3, 0⟩, ⟨0, 0, 0⟩,
        ⟨0, 0, 0⟩, ⟨0, 0, 0⟩, ⟨0, 0, 0⟩, ⟨0, 0, 0⟩, ⟨0, 0, 0⟩, ⟨0, 0, 0⟩]
      _ 2 1 4 5 ⟨0, 1, 0⟩ (by decide) (by decide) (by decide)
    (face_normal_flat vs h hread 1 4 5 (by decide) (by decide) (by decide) (by decide)
      (by decide) (by decide) (by decide)) ?_ ?_ ?_ <;>
  · simp [accumulate, readAt, Vec3.add]
    try norm_num

theorem normals_step_flat_3 (vs : List ℚ) (h : ℚ)
    (hread : ∀ i : Int, 0 ≤ i → i < 12 →
      read_vertex vs i = some ⟨((i % 3 : Int) : ℚ), h, ((i / 3 : Int) : ℚ)⟩) :
    normals_step [0, 3, 4, 0, 4, 1, 1, 4, 5, 1, 5, 2, 3, 6, 7, 3, 7, 4, 4, 7, 8, 4, 8, 5] vs
      [⟨0, 2, 0⟩, ⟨0, 2, 0⟩, ⟨0, 0, 0⟩, ⟨0, 1, 0⟩, ⟨0, 3, 0⟩, ⟨0, 1, 0⟩,
        ⟨0, 0, 0⟩, ⟨0, 0, 0⟩, ⟨0, 0, 0⟩, ⟨0, 0, 0⟩, ⟨0, 0, 0⟩, ⟨0, 0, 0⟩] 3
    = some [⟨0, 2, 0⟩, ⟨0, 3, 0⟩, ⟨0, 1, 0⟩, ⟨0, 1, 0⟩, ⟨0, 3, 0⟩, ⟨0, 2, 0⟩,
        ⟨0, 0, 0⟩, ⟨0, 0, 0⟩, ⟨0, 0, 0⟩, ⟨0, 0, 0⟩, ⟨0, 0, 0⟩, ⟨0, 0, 0⟩] := by
  refine normals_step_of _ vs _
      [⟨0, 2, 0⟩, ⟨0, 3, 0⟩, ⟨0, 0, 0⟩, ⟨0, 1, 0⟩, ⟨0, 3, 0⟩, ⟨0, 1, 0⟩,
        ⟨0, 0, 0⟩, ⟨0, 0, 0⟩, ⟨0, 0, 0⟩, ⟨0, 0, 0⟩, ⟨0, 0, 0⟩, ⟨0, 0, 0⟩]
      [⟨0, 2, 0⟩, ⟨0, 3, 0⟩, ⟨0, 0, 0⟩, ⟨0, 1, 0⟩, ⟨0, 3, 0⟩, ⟨0, 2, 0⟩,
        ⟨0, 0, 0⟩, ⟨0, 0, 0⟩, ⟨0, 0, 0⟩, ⟨0, 0, 0⟩, ⟨0, 0, 0⟩, ⟨0, 0, 0⟩]
      _ 3 1 5 2 ⟨0, 1, 0⟩ (by decide) (by decide) (by decide)
    (face_normal_flat vs h hread 1 5 2 (by decide) (by decide) (by decide) (by decide)
      (by decide) (by decide) (by decide)) ?_ ?_ ?_ <;>
  · simp [accumulate, readAt, Vec3.add]
    try norm_num

theorem normals_step_flat_4 (vs : List ℚ) (h : ℚ)
    (hread : ∀ i : Int, 0 ≤ i → i < 12 →
      read_vertex vs i = some ⟨((i % 3 : Int) : ℚ), h, ((i / 3 : Int) : ℚ)⟩) :
    normals_step [0, 3, 4, 0, 4, 1, 1, 4, 5, 1, 5, 2, 3, 6, 7, 3, 7, 4, 4, 7, 8, 4, 8, 5] vs
      [⟨0, 2, 0⟩, ⟨0, 3, 0⟩, ⟨0, 1, 0⟩, ⟨0, 1, 0⟩, ⟨0, 3, 0⟩, ⟨0, 2, 0⟩,
        ⟨0, 0, 0⟩, ⟨0, 0, 0⟩, ⟨0, 0, 0⟩, ⟨0, 0, 0⟩, ⟨0, 0, 0⟩, ⟨0, 0, 0⟩] 4
    = some [⟨0, 2, 0⟩, ⟨0, 3, 0⟩, ⟨0, 1, 0⟩, ⟨0, 2, 0⟩, ⟨0, 3, 0⟩, ⟨0, 2, 0⟩,
        ⟨0, 1, 0⟩, ⟨0, 1, 0⟩, ⟨0, 0, 0⟩, ⟨0, 0, 0⟩, ⟨0, 0, 0⟩, ⟨0, 0, 0⟩] := by
  refine normals_step_of _ vs _
      [⟨0, 2, 0⟩, ⟨0, 3, 0⟩, ⟨0, 1, 0⟩, ⟨0, 2, 0⟩, ⟨0, 3, 0⟩, ⟨0, 2, 0⟩,
        ⟨0, 0, 0⟩, ⟨0, 0, 0⟩, ⟨0, 0, 0⟩, ⟨0, 0, 0⟩, ⟨0, 0, 0⟩, ⟨0, 0, 0⟩]
      [⟨0, 2, 0⟩, ⟨0, 3, 0⟩, ⟨0, 1, 0⟩, ⟨0, 2, 0⟩, ⟨0, 3, 0⟩, ⟨0, 2, 0⟩,
        ⟨0, 1, 0⟩, ⟨0, 0, 0⟩, ⟨0, 0, 0⟩, ⟨0, 0, 0⟩, ⟨0, 0, 0⟩, ⟨0, 0, 0⟩]
      _ 4 3 6 7 ⟨0, 1, 0⟩ (by decide) (by decide) (by decide)
    (face_normal_flat vs h hread 3 6 7 (by decide) (by decide) (by decide) (by decide)
      (by decide) (by decide) (by decide)) ?_ ?_ ?_ <;>
  · simp [accumulate, readAt, Vec3.add]
    try norm_num

theorem normals_step_flat_5 (vs : List ℚ) (h : ℚ)
    (hread : ∀ i : Int, 0 ≤ i → i < 12 →
      read_vertex vs i = some ⟨((i % 3 : Int) : ℚ), h, ((i / 3 : Int) : ℚ)⟩) :
    normals_step [0, 3, 4, 0, 4, 1, 1, 4, 5, 1, 5, 2, 3, 6, 7, 3, 7, 4, 4, 7, 8, 4, 8, 5] vs
      [⟨0, 2, 0⟩, ⟨0, 3, 0⟩, ⟨0, 1, 0⟩, ⟨0, 2, 0⟩, ⟨0, 3, 0⟩, ⟨0, 2, 0⟩,
        ⟨0, 1, 0⟩, ⟨0, 1, 0⟩, ⟨0, 0, 0⟩, ⟨0, 0, 0⟩, ⟨0, 0, 0⟩, ⟨0, 0, 0⟩] 5
    = some [⟨0, 2, 0⟩, ⟨0, 3, 0⟩, ⟨0, 1, 0⟩, ⟨0, 3, 0⟩, ⟨0, 4, 0⟩, ⟨0, 2, 0⟩,
        ⟨0, 1, 0⟩, ⟨0, 2, 0⟩, ⟨0, 0, 0⟩, ⟨0, 0, 0⟩, ⟨0, 0, 0⟩, ⟨0, 0, 0⟩] := by
  refine normals_step_of _ vs _
      [⟨0, 2, 0⟩, ⟨0, 3, 0⟩, ⟨0, 1, 0⟩, ⟨0, 3, 0⟩, ⟨0, 3, 0⟩, ⟨0, 2, 0⟩,
        ⟨0, 1, 0⟩, ⟨0, 1, 0⟩, ⟨0, 0, 0⟩, ⟨0, 0, 0⟩, ⟨0, 0, 0⟩, ⟨0, 0, 0⟩]
      [⟨0, 2, 0⟩, ⟨0, 3, 0⟩, ⟨0, 1, 0⟩, ⟨0, 3, 0⟩, ⟨0, 3, 0⟩, ⟨0, 2, 0⟩,
        ⟨0, 1, 0⟩, ⟨0, 2, 0⟩, ⟨0, 0, 0⟩, ⟨0, 0, 0⟩, ⟨0, 0, 0⟩, ⟨0, 0, 0⟩]
      _ 5 3 7 4 ⟨0, 1, 0⟩ (by decide) (by decide) (by decide)
    (face_normal_flat vs h hread 3 7 4 (by decide) (by decide) (by decide) (by decide)
      (by decide) (by decide) (by decide)) ?_ ?_ ?_ <;>
  · simp [accumulate, readAt, Vec3.add]
    try norm_num

theorem normals_step_flat_6 (vs : List ℚ) (h : ℚ)
    (hread : ∀ i : Int, 0 ≤ i → i < 12 →
      read_vertex vs i = some ⟨((i % 3 : Int) : ℚ), h, ((i / 3 : Int) : ℚ)⟩) :
    normals_step [0, 3, 4, 0, 4, 1, 1, 4, 5, 1, 5, 2, 3, 6, 7, 3, 7, 4, 4, 7, 8, 4, 8, 5] vs
      [⟨0, 2, 0⟩, ⟨0, 3, 0⟩, ⟨0, 1, 0⟩, ⟨0, 3, 0⟩, ⟨0, 4, 0⟩, ⟨0, 2, 0⟩,
        ⟨0, 1, 0⟩, ⟨0, 2, 0⟩, ⟨0, 0, 0⟩, ⟨0, 0, 0⟩, ⟨0, 0, 0⟩, ⟨0, 0, 0⟩] 6
    = some [⟨0, 2, 0⟩, ⟨0, 3, 0⟩, ⟨0, 1, 0⟩, ⟨0, 3, 0⟩, ⟨0, 5, 0⟩, ⟨0, 2, 0⟩,
        ⟨0, 1, 0⟩, ⟨0, 3, 0⟩, ⟨0, 1, 0⟩, ⟨0, 0, 0⟩, ⟨0, 0, 0⟩, ⟨0, 0, 0⟩] := by
  refine normals_step_of _ vs _
      [⟨0, 2, 0⟩, ⟨0, 3, 0⟩, ⟨0, 1, 0⟩, ⟨0, 3, 0⟩, ⟨0, 5, 0⟩, ⟨0, 2, 0⟩,
        ⟨0, 1, 0⟩, ⟨0, 2, 0⟩, ⟨0, 0, 0⟩, ⟨0, 0, 0⟩, ⟨0, 0, 0⟩, ⟨0, 0, 0⟩]
      [⟨0, 2, 0⟩, ⟨0, 3, 0⟩, ⟨0, 1, 0⟩, ⟨0, 3, 0⟩, ⟨0, 5, 0⟩, ⟨0, 2, 0⟩,
        ⟨0, 1, 0⟩, ⟨0, 3, 0⟩, ⟨0, 0, 0⟩, ⟨0, 0, 0⟩, ⟨0, 0, 0⟩, ⟨0, 0, 0⟩]
      _ 6 4 7 8 ⟨0, 1, 0⟩ (by decide) (by decide) (by decide)
    (face_normal_flat vs h hread 4 7 8 (by decide) (by decide) (by decide) (by decide)
      (by decide) (by decide) (by decide)) ?_ ?_ ?_ <;>
  · simp [accumulate, readAt, Vec3.add]
    try norm_num

theorem normals_step_flat_7 (vs : List ℚ) (h : ℚ)
    (hread : ∀ i : Int, 0 ≤ i → i < 12 →
      read_vertex vs i = some ⟨((i % 3 : Int) : ℚ), h, ((i / 3 : Int) : ℚ)⟩) :
    normals_step [0, 3, 4, 0, 4, 1, 1, 4, 5, 1, 5, 2, 3, 6, 7, 3, 7, 4, 4, 7, 8, 4, 8, 5] vs
      [⟨0, 2, 0⟩, ⟨0, 3, 0⟩, ⟨0, 1, 0⟩, ⟨0, 3, 0⟩, ⟨0, 5, 0⟩, ⟨0, 2, 0⟩,
        ⟨0, 1, 0⟩, ⟨0, 3, 0⟩, ⟨0, 1, 0⟩, ⟨0, 0, 0⟩, ⟨0, 0, 0⟩, ⟨0, 0, 0⟩] 7
    = some [⟨0, 2, 0⟩, ⟨0, 3, 0⟩, ⟨0, 1, 0⟩, ⟨0, 3, 0⟩, ⟨0, 6, 0⟩, ⟨0, 3, 0⟩,
        ⟨0, 1, 0⟩, ⟨0, 3, 0⟩, ⟨0, 2, 0⟩, ⟨0, 0, 0⟩, ⟨0, 0, 0⟩, ⟨0, 0, 0⟩] := by
  refine normals_step_of _ vs _
      [⟨0, 2, 0⟩, ⟨0, 3, 0⟩, ⟨0, 1, 0⟩, ⟨0, 3, 0⟩, ⟨0, 6, 0⟩, ⟨0, 2, 0⟩,
        ⟨0, 1, 0⟩, ⟨0, 3, 0⟩, ⟨0, 1, 0⟩, ⟨0, 0, 0⟩, ⟨0, 0, 0⟩, ⟨0, 0, 0⟩]
      [⟨0, 2, 0⟩, ⟨0, 3, 0⟩, ⟨0, 1, 0⟩, ⟨0, 3, 0⟩, ⟨0, 6, 0⟩, ⟨0, 2, 0⟩,
        ⟨0, 1, 0⟩, ⟨0, 3, 0⟩, ⟨0, 2, 0⟩, ⟨0, 0, 0⟩, ⟨0, 0, 0⟩, ⟨0, 0, 0⟩]
      _ 7 4 8 5 ⟨0, 1, 0⟩ (by decide) (by decide) (by decide)
    (face_normal_flat vs h hread 4 8 5 (by decide) (by decide) (by decide) (by decide)
      (by decide) (by decide) (by decide)) ?_ ?_ ?_ <;>
  · simp [accumulate, readAt, Vec3.add]
    try norm_num

/-- The accumulated normals of a 3×3 chunk all of whose vertices have the same
height: every vertex of rows 0–2 collects one `(0, 1, 0)` per triangle it
belongs to, the vertices of row 3 belong to no triangle. -/
theorem accumulate_flat_3_3 (vs : List ℚ) (h : ℚ)
    (hread : ∀ i : Int, 0 ≤ i → i < 12 →
      read_vertex vs i = some ⟨((i % 3 : Int) : ℚ), h, ((i / 3 : Int) : ℚ)⟩) :
    (List.range 8).foldlM
      (normals_step [0, 3, 4, 0, 4, 1, 1, 4, 5, 1, 5, 2, 3, 6, 7, 3, 7, 4, 4, 7, 8, 4, 8, 5] vs)
      (List.replicate 12 (⟨0, 0, 0⟩ : Vec3)) =
    some [⟨0, 2, 0⟩, ⟨0, 3, 0⟩, ⟨0, 1, 0⟩, ⟨0, 3, 0⟩, ⟨0, 6, 0⟩, ⟨0, 3, 0⟩,
        ⟨0, 1, 0⟩, ⟨0, 3, 0⟩, ⟨0, 2, 0⟩, ⟨0, 0, 0⟩, ⟨0, 0, 0⟩, ⟨0, 0, 0⟩] := by
  have e : List.replicate 12 (⟨0, 0, 0⟩ : Vec3) =
      [⟨0, 0, 0⟩, ⟨0, 0, 0⟩, ⟨0, 0, 0⟩, ⟨0, 0, 0⟩, ⟨0, 0, 0⟩, ⟨0, 0, 0⟩,
        ⟨0, 0, 0⟩, ⟨0, 0, 0⟩, ⟨0, 0, 0⟩, ⟨0, 0, 0⟩, ⟨0, 0, 0⟩, ⟨0, 0, 0⟩] := by
    decide
  have r : List.range 8 = [0, 1, 2, 3, 4, 5, 6, 7] := by decide
  rw [e, r]
  simp only [List.foldlM_cons, List.foldlM_nil, Option.bind_eq_bind, Option.some_bind,
    Option.pure_def, normals_step_flat_0 vs h hread, normals_step_flat_1 vs h hread,
    normals_step_flat_2 vs h hread, normals_step_flat_3 vs h hread,
    normals_step_flat_4 vs h hread, normals_step_flat_5 vs h hread,
    normals_step_flat_6 vs h hread, normals_step_flat_7 vs h hread]

theorem read_vertex_flat_3_3 (vs : List ℚ) (r : ℚ)
    (hvs : generate_vertices 3 3 (List.replicate 12 r) = some vs) (i : Int) (h0 : 0 ≤ i)
    (h1 : i < 12) :
    read_vertex vs i = some ⟨((i % 3 : Int) : ℚ), vertex_height r, ((i / 3 : Int) : ℚ)⟩ := by
  obtain ⟨n, rfl⟩ := Int.eq_ofNat_of_zero_le h0
  have hn : n < 12 := by omega
  have hcell : n % 3 + n / 3 * 3 = n := by omega
  have key := read_vertex_cell 3 3 (List.replicate 12 r) vs (by simp) hvs (n % 3) (n / 3)
    (by omega) (by omega)
  rw [hcell] at key
  have hget : (List.replicate 12 r).getD n 0 = r := by
    rw [List.getD_eq_getElem?_getD, List.getElem?_replicate, if_pos hn]
    rfl
  rw [key, hget]
  simp only [Option.some.injEq, Vec3.mk.injEq, true_and]
  exact ⟨by norm_cast, by norm_cast⟩

theorem inversesqrt_sq (k : ℚ) (hk : 0 < k) : inversesqrt (k * k) = .fin (1 / k) := by
  have hpos : 0 < k * k := mul_pos hk hk
  have hnum : 0 < k.num := Rat.num_pos.2 hk
  unfold inversesqrt
  rw [if_neg (not_lt.2 (le_of_lt hpos)), if_neg (ne_of_gt hpos), Rat.mul_self_num,
    Rat.mul_self_den, Int.natAbs_mul, Nat.sqrt_eq, Nat.sqrt_eq, if_pos ⟨rfl, rfl⟩]
  congr 1
  have hn : ((k.num.natAbs : Nat) : ℚ) = (k.num : ℚ) := by
    have h : ((k.num.natAbs : Nat) : Int) = k.num := Int.natAbs_of_nonneg (le_of_lt hnum)
    calc ((k.num.natAbs : Nat) : ℚ) = (((k.num.natAbs : Nat) : Int) : ℚ) :=
          (Int.cast_natCast _).symm
      _ = (k.num : ℚ) := by rw [h]
  rw [hn]
  have hd : (k.den : ℚ) ≠ 0 := by exact_mod_cast k.den_nz
  have hnq : (k.num : ℚ) ≠ 0 := by exact_mod_cast (ne_of_gt hnum)
  conv_rhs => rw [← Rat.num_div_den k]
  field_simp

theorem glm_normalize_up (k : ℚ) (hk : 0 < k) :
    glm_normalize ⟨0, k, 0⟩ = ⟨.fin 0, .fin 1, .fin 0⟩ := by
  unfold glm_normalize Vec3.dot
  have e : (0 : ℚ) * 0 + k * k + 0 * 0 = k * k := by ring
  simp only [e, inversesqrt_sq k hk, FloatX.scale]
  have : k * (1 / k) = 1 := by field_simp
  rw [this]
  simp

theorem glm_normalize_zero : glm_normalize ⟨0, 0, 0⟩ = ⟨.nan, .nan, .nan⟩ := by
  unfold glm_normalize Vec3.dot
  have e : (0 : ℚ) * 0 + 0 * 0 + 0 * 0 = 0 := by ring
  have h : inversesqrt 0 = .posInf := by
    unfold inversesqrt
    simp
  simp only [e, h, FloatX.scale]
  simp


theorem wrapped_sample_flat (hm : Heightmap) (hwf : hm.WellFormed) (b : Fin 256)
    (hflat : ∀ s ∈ hm.data, s = b) (wx wy : Int) :
    wrapped_sample hm wx wy = ((b.val : Nat) : ℚ) / 255 := by
  obtain ⟨h0, h1⟩ := sample_index_in_bounds hm hwf wx wy
  unfold wrapped_sample
  simp only
  have hlt : (get_mirrored_coord wy hm.hmHeight * hm.hmWidth
      + get_mirrored_coord wx hm.hmWidth).toNat < hm.data.length := by omega
  rw [List.getD_eq_getElem hm.data 0 hlt, hflat _ (List.getElem_mem hlt)]

theorem box_mean_flat (hm : Heightmap) (hwf : hm.WellFormed) (b : Fin 256)
    (hflat : ∀ s ∈ hm.data, s = b) (wx wy : Int) :
    box_mean hm wx wy = ((b.val : Nat) : ℚ) / 255 := by
  unfold box_mean
  simp only [wrapped_sample_flat hm hwf b hflat]
  ring

theorem generate_noise_map_flat_3_3 (hm : Heightmap) (hwf : hm.WellFormed) (b : Fin 256)
    (hflat : ∀ s ∈ hm.data, s = b) (xOffset yOffset : Int) :
    generate_noise_map (some hm) 3 3 xOffset yOffset
      = some (List.replicate 12 (((b.val : Nat) : ℚ) / 255)) := by
  rw [generate_noise_map_some hm hwf]
  simp only [box_mean_flat hm hwf b hflat]
  rfl

/-- The normal buffer of a 3×3 chunk whose noise map is flat, in the float
model with NaN: `(0, 1, 0)` for the nine vertices of rows 0–2, NaN components
for the three vertices of row 3. -/
theorem generate_normals_ieee_flat_3_3 (r : ℚ) :
    ∃ vs, generate_vertices 3 3 (List.replicate 12 r) = some vs ∧ vs.length = 60 ∧
      generate_normals_ieee glm_normalize (generate_indices 3 3) vs =
        some [.fin 0, .fin 1, .fin 0, .fin 0, .fin 1, .fin 0, .fin 0, .fin 1, .fin 0,
              .fin 0, .fin 1, .fin 0, .fin 0, .fin 1, .fin 0, .fin 0, .fin 1, .fin 0,
              .fin 0, .fin 1, .fin 0, .fin 0, .fin 1, .fin 0, .fin 0, .fin 1, .fin 0,
              .nan, .nan, .nan, .nan, .nan, .nan, .nan, .nan, .nan] := by
  obtain ⟨vs, hvs, hlen, _⟩ := generate_vertices_spec 3 3 (List.replicate 12 r) (by simp)
  refine ⟨vs, hvs, hlen, ?_⟩
  have hacc := accumulate_flat_3_3 vs (vertex_height r) (read_vertex_flat_3_3 vs r hvs)
  have hcount : (([0, 3, 4, 0, 4, 1, 1, 4, 5, 1, 5, 2, 3, 6, 7, 3, 7, 4, 4, 7, 8, 4, 8, 5] :
      List Int).length + 2) / 3 = 8 := by decide
  have hv : vs.length / 5 = 12 := by omega
  unfold generate_normals_ieee
  rw [generate_indices_3_3, hcount, hv]
  simp only [hacc, Option.bind_eq_bind, Option.some_bind, Option.pure_def, List.foldl_cons,
    List.foldl_nil, List.nil_append, List.cons_append, glm_normalize_zero,
    glm_normalize_up 1 (by norm_num), glm_normalize_up 2 (by norm_num),
    glm_normalize_up 3 (by norm_num), glm_normalize_up 6 (by norm_num)]

/-! ## Lemmas on index bounds -/

theorem mem_generate_indices (chunkWidth chunkHeight : Nat) (i : Int)
    (hi : i ∈ generate_indices chunkWidth chunkHeight) :
    0 ≤ i ∧ i < ((chunkWidth * (chunkHeight + 1) : Nat) : Int) := by
  rw [generate_indices_eq] at hi
  simp only [List.mem_flatMap, List.mem_range] at hi
  obtain ⟨y, hy, x, hx, hmem⟩ := hi
  have b00 := cell_lt chunkWidth (chunkHeight + 1) x y (by omega) (by omega)
  have b01 := cell_lt chunkWidth (chunkHeight + 1) x (y + 1) (by omega) (by omega)
  have b11 := cell_lt chunkWidth (chunkHeight + 1) (x + 1) (y + 1) (by omega) (by omega)
  have b10 := cell_lt chunkWidth (chunkHeight + 1) (x + 1) y (by omega) (by omega)
  have c00 : (x : Int) + (y : Int) * (chunkWidth : Int) = ((x + y * chunkWidth : Nat) : Int) := by
    push_cast; ring
  have c01 : (x : Int) + (y : Int) * (chunkWidth : Int) + chunkWidth
      = ((x + (y + 1) * chunkWidth : Nat) : Int) := by push_cast; ring
  have c11 : (x : Int) + (y : Int) * (chunkWidth : Int) + chunkWidth + 1
      = (((x + 1) + (y + 1) * chunkWidth : Nat) : Int) := by push_cast; ring
  have c10 : (x : Int) + (y : Int) * (chunkWidth : Int) + 1
      = (((x + 1) + y * chunkWidth : Nat) : Int) := by push_cast; ring
  rw [c11, c01, c10, c00] at hmem
  simp only [List.mem_cons, List.mem_singleton, List.not_mem_nil, or_false] at hmem
  rcases hmem with h | h | h | h | h | h <;> rw [h] <;>
    exact ⟨Int.natCast_nonneg _, by exact_mod_cast (by assumption)⟩

theorem read_vertex_some (vertices : List ℚ) (N n : Nat) (hlen : vertices.length = 5 * N)
    (hn : n < N) : ∃ v, read_vertex vertices (n : Int) = some v := by
  have h0 : n * 5 < vertices.length := by omega
  have h1 : n * 5 + 1 < vertices.length := by omega
  have h2 : n * 5 + 2 < vertices.length := by omega
  exact ⟨_, read_vertex_natCast vertices n _ _ _ (List.getElem?_eq_getElem h0)
    (List.getElem?_eq_getElem h1) (List.getElem?_eq_getElem h2)⟩

theorem generate_normals_in_bounds (normalize : Vec3 → Vec3) (chunkWidth chunkHeight : Nat)
    (vertices : List ℚ) (hlen : vertices.length = 5 * (chunkWidth * (chunkHeight + 1))) :
    ∃ ns, generate_normals normalize (generate_indices chunkWidth chunkHeight) vertices
        = some ns ∧ ns.length = 3 * (chunkWidth * (chunkHeight + 1)) := by
  have hN : vertices.length / 5 = chunkWidth * (chunkHeight + 1) := by omega
  have hstep : ∀ k (s : List Vec3),
      k < ((generate_indices chunkWidth chunkHeight).length + 2) / 3 →
      s.length = chunkWidth * (chunkHeight + 1) →
      ∃ s', normals_step (generate_indices chunkWidth chunkHeight) vertices s k = some s' ∧
        s'.length = chunkWidth * (chunkHeight + 1) := by
    intro k s hk hs
    have hk' : 3 * k < (generate_indices chunkWidth chunkHeight).length := by
      rw [generate_indices_length] at hk ⊢; omega
    obtain ⟨x, y, hx, hy, h0, h12⟩ := triangle_at chunkWidth chunkHeight k hk'
    have b00 := cell_lt chunkWidth (chunkHeight + 1) x y (by omega) (by omega)
    have b01 := cell_lt chunkWidth (chunkHeight + 1) x (y + 1) (by omega) (by omega)
    have b11 := cell_lt chunkWidth (chunkHeight + 1) (x + 1) (y + 1) (by omega) (by omega)
    have b10 := cell_lt chunkWidth (chunkHeight + 1) (x + 1) y (by omega) (by omega)
    have fin : ∀ a b c : Nat, a < chunkWidth * (chunkHeight + 1) →
        b < chunkWidth * (chunkHeight + 1) → c < chunkWidth * (chunkHeight + 1) →
        (generate_indices chunkWidth chunkHeight)[3 * k]? = some (a : Int) →
        (generate_indices chunkWidth chunkHeight)[3 * k + 1]? = some (b : Int) →
        (generate_indices chunkWidth chunkHeight)[3 * k + 2]? = some (c : Int) →
        ∃ s', normals_step (generate_indices chunkWidth chunkHeight) vertices s k = some s' ∧
          s'.length = chunkWidth * (chunkHeight + 1) := by
      intro a b c ha hb hc i0 i1 i2
      obtain ⟨v1, r1⟩ := read_vertex_some vertices _ a hlen ha
      obtain ⟨v2, r2⟩ := read_vertex_some vertices _ b hlen hb
      obtain ⟨v3, r3⟩ := read_vertex_some vertices _ c hlen hc
      have hf : face_normal vertices a b c = some (Vec3.cross (v2.sub v1) (v3.sub v1)) := by
        unfold face_normal
        rw [r1, r2, r3]
        rfl
      obtain ⟨t1, e1, l1⟩ := accumulate_natCast s a _ (by omega)
      obtain ⟨t2, e2, l2⟩ := accumulate_natCast t1 b _ (by omega)
      obtain ⟨t3, e3, l3⟩ := accumulate_natCast t2 c _ (by omega)
      exact ⟨t3, normals_step_of _ _ _ _ _ _ k _ _ _ _ i0 i1 i2 hf e1 e2 e3, by omega⟩
    rcases h12 with ⟨h1, h2⟩ | ⟨h1, h2⟩
    · exact fin _ _ _ b00 b01 b11 h0 h1 h2
    · exact fin _ _ _ b00 b11 b10 h0 h1 h2
  obtain ⟨t, ht, htlen⟩ := foldlM_range_inv
    (fun _ (t : List Vec3) => t.length = chunkWidth * (chunkHeight + 1))
    (normals_step (generate_indices chunkWidth chunkHeight) vertices)
    (((generate_indices chunkWidth chunkHeight).length + 2) / 3)
    (fun k s hk hs => hstep k s hk hs)
    (List.replicate (vertices.length / 5) (⟨0, 0, 0⟩ : Vec3)) (by simp [hN])
  have hgen : generate_normals normalize (generate_indices chunkWidth chunkHeight) vertices =
      some (t.foldl (fun normals n =>
        let n := normalize n
        normals ++ [n.x, n.y, n.z]) []) := by
    unfold generate_normals
    simp only [ht, Option.bind_eq_bind, Option.some_bind, Option.pure_def]
  refine ⟨_, hgen, ?_⟩
  rw [length_push_normals, htlen]
  simp

/-! ## Lemmas on the vegetation instancer -/

theorem cell_unique (X a b x y : Nat) (ha : a < X) (hx : x < X)
    (h : a + b * X = x + y * X) : a = x ∧ b = y := by
  have hX : 0 < X := by omega
  have h1 : (a + b * X) % X = (x + y * X) % X := by rw [h]
  have h2 : (a + b * X) / X = (x + y * X) / X := by rw [h]
  rw [Nat.add_mul_mod_self_right, Nat.add_mul_mod_self_right, Nat.mod_eq_of_lt ha,
    Nat.mod_eq_of_lt hx] at h1
  rw [Nat.add_mul_div_right _ _ hX, Nat.add_mul_div_right _ _ hX, Nat.div_eq_of_lt ha,
    Nat.div_eq_of_lt hx] at h2
  omega

theorem plants_owned_cons (S : String) (x y : Int) (p : plant) (t : List plant) :
    plants_owned S x y (p :: t) =
      plants_owned S x y t + if (p.type = S ∧ p.xOffset = x ∧ p.yOffset = y) then 1 else 0 := by
  unfold plants_owned
  rw [List.countP_cons]
  simp

theorem collect_loop (xMapChunks yMapChunks : Nat) (S : String) (plants : List plant)
    (hgrid : ∀ p ∈ plants, 0 ≤ p.xOffset ∧ p.xOffset < xMapChunks ∧
      0 ≤ p.yOffset ∧ p.yOffset < yMapChunks)
    (ci : List (List ℚ)) (hci : ci.length = xMapChunks * yMapChunks) :
    ∃ ci', plants.foldlM (fun chunkInstances p =>
        if p.type = S then
          let idx : Int := p.xOffset + p.yOffset * (xMapChunks : Int)
          push_instance chunkInstances idx p
        else some chunkInstances) ci = some ci' ∧
      ci'.length = xMapChunks * yMapChunks ∧
      ∀ x y : Nat, x < xMapChunks → y < yMapChunks →
        (ci'.getD (x + y * xMapChunks) []).length =
          (ci.getD (x + y * xMapChunks) []).length + 3 * plants_owned S x y plants := by
  induction plants generalizing ci with
  | nil => exact ⟨ci, rfl, hci, fun x y _ _ => by simp [plants_owned]⟩
  | cons p t ih =>
    have hgt : ∀ q ∈ t, 0 ≤ q.xOffset ∧ q.xOffset < xMapChunks ∧
        0 ≤ q.yOffset ∧ q.yOffset < yMapChunks :=
      fun q hq => hgrid q (List.mem_cons_of_mem p hq)
    obtain ⟨hx0, hx1, hy0, hy1⟩ := hgrid p (List.mem_cons_self p t)
    rw [List.foldlM_cons]
    by_cases hty : p.type = S
    · obtain ⟨a, ha⟩ := Int.eq_ofNat_of_zero_le hx0
      obtain ⟨b, hb⟩ := Int.eq_ofNat_of_zero_le hy0
      have haX : a < xMapChunks := by omega
      have hbY : b < yMapChunks := by omega
      have hidx : p.xOffset + p.yOffset * (xMapChunks : Int)
          = ((a + b * xMapChunks : Nat) : Int) := by rw [ha, hb]; push_cast; ring
      have hlt : a + b * xMapChunks < ci.length := by
        rw [hci]; exact cell_lt xMapChunks yMapChunks a b haX hbY
      have hpush : push_instance ci (p.xOffset + p.yOffset * (xMapChunks : Int)) p
          = some (ci.set (a + b * xMapChunks)
              (ci.getD (a + b * xMapChunks) [] ++ [p.xpos, p.ypos, p.zpos])) := by
        unfold push_instance
        rw [hidx, readAt_natCast, List.getElem?_eq_getElem hlt, Int.toNat_ofNat,
          List.getD_eq_getElem ci [] hlt]
        rfl
      obtain ⟨ci', hfold, hlen', hcnt⟩ := ih hgt
        (ci.set (a + b * xMapChunks)
          (ci.getD (a + b * xMapChunks) [] ++ [p.xpos, p.ypos, p.zpos]))
        (by rw [List.length_set]; exact hci)
      refine ⟨ci', ?_, hlen', ?_⟩
      · simp only [if_pos hty, hpush, Option.bind_eq_bind, Option.some_bind]
        exact hfold
      · intro x y hx hy
        rw [hcnt x y hx hy, plants_owned_cons]
        by_cases hcell : a + b * xMapChunks = x + y * xMapChunks
        · obtain ⟨hax, hby⟩ := cell_unique xMapChunks a b x y haX hx hcell
          have hmatch : p.type = S ∧ p.xOffset = (x : Int) ∧ p.yOffset = (y : Int) := by
            refine ⟨hty, ?_, ?_⟩
            · rw [ha, hax]
            · rw [hb, hby]
          rw [if_pos hmatch, ← hcell, List.getD_eq_getElem?_getD, List.getElem?_set,
            if_pos rfl, if_pos hlt]
          simp
          ring
        · have hmatch : ¬ (p.type = S ∧ p.xOffset = (x : Int) ∧ p.yOffset = (y : Int)) := by
            rintro ⟨_, h1, h2⟩
            apply hcell
            have : a = x := by have := ha.symm.trans h1; exact_mod_cast this
            have : b = y := by have := hb.symm.trans h2; exact_mod_cast this
            subst_vars
            rfl
          rw [if_neg hmatch, List.getD_eq_getElem?_getD, List.getElem?_set, if_neg hcell,
            ← List.getD_eq_getElem?_getD]
          rfl
    · obtain ⟨ci', hfold, hlen', hcnt⟩ := ih hgt ci hci
      refine ⟨ci', ?_, hlen', ?_⟩
      · simp only [if_neg hty, Option.bind_eq_bind, Option.some_bind]
        exact hfold
      · intro x y hx hy
        rw [hcnt x y hx hy, plants_owned_cons, if_neg (fun h => hty h.1)]
        rfl

theorem allocate_step_spec (genVAO : Nat → Nat) (S : String) (ci : List (List ℚ))
    (st : InstancingState) (k : Nat) (hk : k < ci.length)
    (hc : k < (instance_counts S st).length) (hp : k < st.plant_chunk.length) :
    ∃ st', allocate_step genVAO S ci st k = some st' ∧
      instance_counts S st' =
        (if ci.getD k [] = [] then instance_counts S st
         else (instance_counts S st).set k (((ci.getD k []).length / 3 : Nat) : Int)) ∧
      st'.plant_chunk =
        (if ci.getD k [] = [] then st.plant_chunk
         else st.plant_chunk.set k (genVAO (st.vaoCalls + 1))) := by
  have hget : ci[k]? = some (ci.getD k []) := by
    rw [List.getElem?_eq_getElem hk, List.getD_eq_getElem ci [] hk]
  unfold allocate_step
  rw [hget]
  simp only [Option.bind_eq_bind, Option.some_bind, Option.pure_def, List.isEmpty_eq_true]
  by_cases he : ci.getD k [] = []
  · rw [if_pos he, if_pos he, if_pos he]
    exact ⟨st, rfl, rfl, rfl⟩
  · rw [if_neg he, if_neg he, if_neg he]
    by_cases hS : S = "tree"
    · simp only [instance_counts, if_pos hS] at hc ⊢
      simp only [writeAt, if_pos hc, if_pos hp, List.length_set, Option.map_some',
        Option.some_bind, List.set_set]
      exact ⟨_, rfl, rfl, rfl⟩
    · simp only [instance_counts, if_neg hS] at hc ⊢
      simp only [writeAt, if_pos hc, if_pos hp, List.length_set, Option.map_some',
        Option.some_bind, List.set_set]
      exact ⟨_, rfl, rfl, rfl⟩

theorem allocate_loop (genVAO : Nat → Nat) (hgen : ∀ n, genVAO n ≠ 0) (S : String)
    (ci : List (List ℚ)) (N : Nat) (hci : ci.length = N) (st : InstancingState)
    (hc : instance_counts S st = List.replicate N 0)
    (hp : st.plant_chunk = List.replicate N 0) :
    ∃ st', (List.range N).foldlM (allocate_step genVAO S ci) st = some st' ∧
      ∀ i, i < N →
        (instance_counts S st')[i]? = some (((ci.getD i []).length / 3 : Nat) : Int) ∧
        ∃ v, st'.plant_chunk[i]? = some v ∧ (v ≠ 0 ↔ ci.getD i [] ≠ []) := by
  obtain ⟨st', hfold, _, _, hinv⟩ := foldlM_range_inv
    (fun k (s : InstancingState) =>
      (instance_counts S s).length = N ∧ s.plant_chunk.length = N ∧
      ∀ i, i < N →
        (instance_counts S s)[i]? =
          some (if i < k then (((ci.getD i []).length / 3 : Nat) : Int) else 0) ∧
        ∃ v, s.plant_chunk[i]? = some v ∧ (v ≠ 0 ↔ (i < k ∧ ci.getD i [] ≠ [])))
    (allocate_step genVAO S ci) N
    (by
      rintro k s hk ⟨hcl, hpl, hall⟩
      obtain ⟨s', hs', hcs, hps⟩ := allocate_step_spec genVAO S ci s k (by omega)
        (by omega) (by omega)
      refine ⟨s', hs', ?_, ?_, ?_⟩
      · rw [hcs]; split <;> simp [hcl]
      · rw [hps]; split <;> simp [hpl]
      · intro i hi
        obtain ⟨hci_i, v, hv, hviff⟩ := hall i hi
        by_cases he : ci.getD k [] = []
        · rw [hcs, hps, if_pos he, if_pos he]
          by_cases hik : i = k
          · subst hik
            refine ⟨?_, v, hv, ?_⟩
            · rw [hci_i, if_neg (lt_irrefl i), if_pos (Nat.lt_succ_self i), he]
              rfl
            · rw [hviff]
              constructor
              · intro h; exact absurd h.1 (lt_irrefl i)
              · intro h; exact absurd he h.2
          · have hlt : i < k + 1 ↔ i < k := by omega
            refine ⟨?_, v, hv, ?_⟩
            · rw [hci_i]; simp only [hlt]
            · rw [hviff, hlt]
        · rw [hcs, hps, if_neg he, if_neg he]
          by_cases hik : i = k
          · subst hik
            refine ⟨?_, genVAO (s.vaoCalls + 1), ?_, ?_⟩
            · rw [List.getElem?_set, if_pos rfl, if_pos (by omega),
                if_pos (Nat.lt_succ_self i)]
            · rw [List.getElem?_set, if_pos rfl, if_pos (by omega)]
            · constructor
              · intro _; exact ⟨Nat.lt_succ_self i, he⟩
              · intro _; exact hgen _
          · have hlt : i < k + 1 ↔ i < k := by omega
            have hki : ¬ k = i := fun h => hik h.symm
            refine ⟨?_, v, ?_, ?_⟩
            · rw [List.getElem?_set, if_neg hki, hci_i]; simp only [hlt]
            · rw [List.getElem?_set, if_neg hki, hv]
            · rw [hviff, hlt])
    st
    (by
      refine ⟨by rw [hc]; simp, by rw [hp]; simp, ?_⟩
      intro i hi
      refine ⟨by rw [hc]; simp [List.getElem?_replicate, hi], 0, ?_, ?_⟩
      · rw [hp]; simp [List.getElem?_replicate, hi]
      · simp)
  refine ⟨st', hfold, ?_⟩
  intro i hi
  obtain ⟨h1, v, hv, hviff⟩ := hinv i hi
  refine ⟨by rw [h1, if_pos hi], v, hv, ?_⟩
  rw [hviff]
  exact ⟨fun h => h.2, fun h => ⟨hi, h⟩⟩

theorem sum_plants_owned (X Y : Nat) (S : String) (plants : List plant)
    (hgrid : ∀ p ∈ plants, 0 ≤ p.xOffset ∧ p.xOffset < X ∧ 0 ≤ p.yOffset ∧ p.yOffset < Y) :
    ∑ i ∈ Finset.range (X * Y), plants_owned S ((i % X : Nat) : Int) ((i / X : Nat) : Int) plants
      = plants.countP (fun p => decide (p.type = S)) := by
  induction plants with
  | nil => simp [plants_owned]
  | cons p t ih =>
    obtain ⟨hx0, hx1, hy0, hy1⟩ := hgrid p (List.mem_cons_self p t)
    simp only [plants_owned_cons, Finset.sum_add_distrib]
    rw [ih (fun q hq => hgrid q (List.mem_cons_of_mem p hq)), List.countP_cons]
    congr 1
    obtain ⟨a, ha⟩ := Int.eq_ofNat_of_zero_le hx0
    obtain ⟨b, hb⟩ := Int.eq_ofNat_of_zero_le hy0
    have haX : a < X := by omega
    have hbY : b < Y := by omega
    have hX : 0 < X := by omega
    by_cases hty : p.type = S
    · have hiff : ∀ i : Nat, (p.type = S ∧ p.xOffset = ((i % X : Nat) : Int) ∧
          p.yOffset = ((i / X : Nat) : Int)) ↔ a + b * X = i := by
        intro i
        rw [ha, hb]
        constructor
        · rintro ⟨_, h1, h2⟩
          have e1 : a = i % X := by exact_mod_cast h1
          have e2 : b = i / X := by exact_mod_cast h2
          rw [e1, e2, Nat.mul_comm]
          exact Nat.mod_add_div i X
        · intro h
          subst h
          refine ⟨hty, ?_, ?_⟩
          · rw [Nat.add_mul_mod_self_right, Nat.mod_eq_of_lt haX]
          · rw [Nat.add_mul_div_right _ _ hX, Nat.div_eq_of_lt haX, Nat.zero_add]
      simp only [hiff, Finset.sum_ite_eq, Finset.mem_range]
      rw [if_pos (cell_lt X Y a b haX hbY)]
      simp [hty]
    · have hno : ∀ i : Nat, ¬ (p.type = S ∧ p.xOffset = ((i % X : Nat) : Int) ∧
          p.yOffset = ((i / X : Nat) : Int)) := fun i h => hty h.1
      simp [hno, hty]

/-! ## Claim C11: instance grouping -/

/-- C11: instance grouping. Assume the base mesh loads (`vCount > 0`), every
plant's owning chunk is inside the grid, and the counter vector of the species
and the `plant_chunk` vector are as initialised (all `0`). Then
`setup_instancing` returns, and for every chunk `(x, y)` of the grid the
instance count of species `S` at index `x + y * xMapChunks` is the number of
plants of species `S` owned by that chunk, a vertex array is allocated for the
chunk exactly when that number is at least 1, and the counts of all chunks sum
to the number of plants of species `S`. -/
theorem C11_instance_grouping (genVAO : Nat → Nat) (hgen : ∀ n, genVAO n ≠ 0)
    (xMapChunks yMapChunks : Nat) (vCount : Int) (hv : 0 < vCount) (S : String)
    (plants : List plant)
    (hgrid : ∀ p ∈ plants, 0 ≤ p.xOffset ∧ p.xOffset < xMapChunks ∧
      0 ≤ p.yOffset ∧ p.yOffset < yMapChunks)
    (st : InstancingState)
    (hc : instance_counts S st = List.replicate (xMapChunks * yMapChunks) 0)
    (hp : st.plant_chunk = List.replicate (xMapChunks * yMapChunks) 0) :
    ∃ st', setup_instancing genVAO xMapChunks yMapChunks vCount S plants st = some st' ∧
      (∀ x y : Nat, x < xMapChunks → y < yMapChunks →
        (instance_counts S st')[x + y * xMapChunks]?
          = some ((plants_owned S x y plants : Nat) : Int) ∧
        ∃ v, st'.plant_chunk[x + y * xMapChunks]? = some v ∧
          (v ≠ 0 ↔ 1 ≤ plants_owned S x y plants)) ∧
      ∑ i ∈ Finset.range (xMapChunks * yMapChunks), (instance_counts S st').getD i 0
        = ((plants.countP (fun p => decide (p.type = S)) : Nat) : Int) := by
  obtain ⟨ci, hcol, hcilen, hcnt⟩ := collect_loop xMapChunks yMapChunks S plants hgrid
    (List.replicate (xMapChunks * yMapChunks) []) (by simp)
  have hlen0 : ∀ x y : Nat, x < xMapChunks → y < yMapChunks →
      (ci.getD (x + y * xMapChunks) []).length = 3 * plants_owned S x y plants := by
    intro x y hx hy
    rw [hcnt x y hx hy, List.getD_eq_getElem?_getD, List.getElem?_replicate]
    split <;> simp
  obtain ⟨st', hall, hst'⟩ := allocate_loop genVAO hgen S ci (xMapChunks * yMapChunks) hcilen
    { st with vaoCalls := st.vaoCalls + 1 } hc hp
  have hcell : ∀ x y : Nat, x < xMapChunks → y < yMapChunks →
      (instance_counts S st')[x + y * xMapChunks]?
        = some ((plants_owned S x y plants : Nat) : Int) ∧
      ∃ v, st'.plant_chunk[x + y * xMapChunks]? = some v ∧
        (v ≠ 0 ↔ 1 ≤ plants_owned S x y plants) := by
    intro x y hx hy
    obtain ⟨h1, v, hv1, hviff⟩ := hst' (x + y * xMapChunks)
      (cell_lt xMapChunks yMapChunks x y hx hy)
    have hl := hlen0 x y hx hy
    refine ⟨?_, v, hv1, ?_⟩
    · rw [h1, hl, Nat.mul_div_cancel_left _ (by decide : 0 < 3)]
    · rw [hviff, ← List.length_pos, hl]
      omega
  refine ⟨st', ?_, hcell, ?_⟩
  · unfold setup_instancing
    rw [if_neg (by omega)]
    unfold collect_instances
    simp only [hcol, Option.bind_eq_bind, Option.some_bind]
    exact hall
  · rw [← sum_plants_owned xMapChunks yMapChunks S plants hgrid, Nat.cast_sum]
    apply Finset.sum_congr rfl
    intro i hi
    have hiN : i < xMapChunks * yMapChunks := Finset.mem_range.1 hi
    have hX : 0 < xMapChunks := by
      rcases Nat.eq_zero_or_pos xMapChunks with h | h
      · rw [h] at hiN; simp at hiN
      · exact h
    have hy : i / xMapChunks < yMapChunks := (Nat.div_lt_iff_lt_mul hX).2 (by
      rw [Nat.mul_comm]; exact hiN)
    have hi' : i % xMapChunks + i / xMapChunks * xMapChunks = i := by
      rw [Nat.mul_comm]; exact Nat.mod_add_div _ _
    have := (hcell (i % xMapChunks) (i / xMapChunks) (Nat.mod_lt _ hX) hy).1
    rw [hi'] at this
    rw [List.getD_eq_getElem?_getD, this]
    rfl

/-- C11 for three plants on a 2×2 grid: two trees in chunk `(0, 1)`, one
flower in chunk `(1, 1)`. -/
theorem C11_instance_grouping_witness :
    (∀ n, (fun n : Nat => n + 1) n ≠ 0) ∧ (0 : Int) < 5 ∧
    (∀ p ∈ ([⟨"tree", 1, 20, 2, 0, 1⟩, ⟨"flower", 3, 15, 4, 1, 1⟩,
        ⟨"tree", 5, 30, 6, 0, 1⟩] : List plant),
      0 ≤ p.xOffset ∧ p.xOffset < (2 : Nat) ∧ 0 ≤ p.yOffset ∧ p.yOffset < (2 : Nat)) ∧
    instance_counts "tree" ⟨[0, 0, 0, 0], [0, 0, 0, 0], [0, 0, 0, 0], 0⟩
      = List.replicate (2 * 2) 0 ∧
    (⟨[0, 0, 0, 0], [0, 0, 0, 0], [0, 0, 0, 0], 0⟩ : InstancingState).plant_chunk
      = List.replicate (2 * 2) 0 ∧
    ∃ st', setup_instancing (fun n : Nat => n + 1) 2 2 5 "tree"
        [⟨"tree", 1, 20, 2, 0, 1⟩, ⟨"flower", 3, 15, 4, 1, 1⟩, ⟨"tree", 5, 30, 6, 0, 1⟩]
        ⟨[0, 0, 0, 0], [0, 0, 0, 0], [0, 0, 0, 0], 0⟩ = some st' ∧
      (∀ x y : Nat, x < 2 → y < 2 →
        (instance_counts "tree" st')[x + y * 2]?
          = some ((plants_owned "tree" x y
              [⟨"tree", 1, 20, 2, 0, 1⟩, ⟨"flower", 3, 15, 4, 1, 1⟩,
                ⟨"tree", 5, 30, 6, 0, 1⟩] : Nat) : Int) ∧
        ∃ v, st'.plant_chunk[x + y * 2]? = some v ∧
          (v ≠ 0 ↔ 1 ≤ plants_owned "tree" x y
              [⟨"tree", 1, 20, 2, 0, 1⟩, ⟨"flower", 3, 15, 4, 1, 1⟩,
                ⟨"tree", 5, 30, 6, 0, 1⟩])) ∧
      ∑ i ∈ Finset.range (2 * 2), (instance_counts "tree" st').getD i 0
        = ((List.countP (fun p => decide (p.type = "tree"))
            ([⟨"tree", 1, 20, 2, 0, 1⟩, ⟨"flower", 3, 15, 4, 1, 1⟩,
              ⟨"tree", 5, 30, 6, 0, 1⟩] : List plant) : Nat) : Int) :=
  ⟨fun n => Nat.succ_ne_zero n, by decide, by decide, by decide, by decide,
    C11_instance_grouping (fun n : Nat => n + 1) (fun n => Nat.succ_ne_zero n) 2 2 5
      (by decide) "tree"
      [⟨"tree", 1, 20, 2, 0, 1⟩, ⟨"flower", 3, 15, 4, 1, 1⟩, ⟨"tree", 5, 30, 6, 0, 1⟩]
      (by decide) ⟨[0, 0, 0, 0], [0, 0, 0, 0], [0, 0, 0, 0], 0⟩ (by decide) (by decide)⟩

/-! ## Claims C12 – C13: the full-map fold -/

/-- C12: full-map fold. For every camera position and image dimension
`W > 0` (resp. `H > 0`) the folded coordinate `drawFullMap` computes from
`u = x / W` lies in `[0, 1]`; `x = 2.3 * W` folds to `0.3` and `x = 1.7 * W`
folds to `0.3`, and the same for the V coordinate with the image height. -/
theorem C12_full_map_fold (x z : ℚ) (W H : Int) (hW : 0 < W) (hH : 0 < H) :
    (0 ≤ full_map_uv x W ∧ full_map_uv x W ≤ 1) ∧
    (0 ≤ full_map_uv z H ∧ full_map_uv z H ≤ 1) ∧
    full_map_uv (2.3 * (W : ℚ)) W = 0.3 ∧ full_map_uv (1.7 * (W : ℚ)) W = 0.3 ∧
    full_map_uv (2.3 * (H : ℚ)) H = 0.3 ∧ full_map_uv (1.7 * (H : ℚ)) H = 0.3 := by
  refine ⟨fold_uv_range _, fold_uv_range _, ?_, ?_, ?_, ?_⟩
  · rw [full_map_uv_times _ W hW, fold_uv_example_a]
  · rw [full_map_uv_times _ W hW, fold_uv_example_b]
  · rw [full_map_uv_times _ H hH, fold_uv_example_a]
  · rw [full_map_uv_times _ H hH, fold_uv_example_b]

/-- C12 on a 512×256 image at the camera position `(-700, 90)`. -/
theorem C12_full_map_fold_witness :
    (0 : Int) < 512 ∧ (0 : Int) < 256 ∧
    (0 ≤ full_map_uv (-700) 512 ∧ full_map_uv (-700) 512 ≤ 1) ∧
    (0 ≤ full_map_uv 90 256 ∧ full_map_uv 90 256 ≤ 1) ∧
    full_map_uv (2.3 * ((512 : Int) : ℚ)) 512 = 0.3 ∧
    full_map_uv (1.7 * ((512 : Int) : ℚ)) 512 = 0.3 ∧
    full_map_uv (2.3 * ((256 : Int) : ℚ)) 256 = 0.3 ∧
    full_map_uv (1.7 * ((256 : Int) : ℚ)) 256 = 0.3 :=
  ⟨by decide, by decide, C12_full_map_fold (-700) 90 512 256 (by decide) (by decide)⟩

/-- C13 as stated fails: for the world column `c = 3` of an image of width
`W = 2` the full-map fold scaled by `W` gives `1`, the sampler's mirrored wrap
gives column `0`. -/
theorem C13_fold_reuse_counterexample :
    (0 : Int) < 2 ∧ ((2 : Int) : ℚ) * full_map_uv ((3 : Int) : ℚ) 2 = 1 ∧
    get_mirrored_coord 3 2 = 0 ∧
    ((2 : Int) : ℚ) * full_map_uv ((3 : Int) : ℚ) 2 ≠ ((get_mirrored_coord 3 2 : Int) : ℚ) := by
  have h := full_map_uv_scaled 3 2 (by decide)
  have hg : get_mirrored_coord 3 2 = 0 := by decide
  rw [if_neg (by decide), hg] at h
  refine ⟨by decide, ?_, hg, ?_⟩
  · rw [h]; norm_num
  · rw [h, hg]; norm_num

/-- C13 amended: for every integer world coordinate `c` and image width
`W > 0`, the full-map fold of `c / W` scaled by `W` is the sampler's column
`get_mirrored_coord c W` when `c` lies in an unreflected period
(`|c| mod 2W < W`), and it is that column plus one when `c` lies in a
reflected period (`|c| mod 2W ≥ W`), where the fold reflects by `2 - v` and
the sampler by `cycle - 1 - v`. -/
theorem C13_fold_reuse_amended (c W : Int) (hW : 0 < W) :
    (|c| % (2 * W) < W →
      (W : ℚ) * full_map_uv (c : ℚ) W = ((get_mirrored_coord c W : Int) : ℚ)) ∧
    (W ≤ |c| % (2 * W) →
      (W : ℚ) * full_map_uv (c : ℚ) W = ((get_mirrored_coord c W + 1 : Int) : ℚ)) := by
  have h := full_map_uv_scaled c W hW
  constructor
  · intro hlt
    rw [h, if_pos hlt]
  · intro hge
    rw [h, if_neg (not_lt.2 hge)]

/-- C13 amended at `c = -9`, `W = 4` (unreflected) and `c = 6`, `W = 4`
(reflected). -/
theorem C13_fold_reuse_amended_witness :
    ((0 : Int) < 4 ∧ |(-9 : Int)| % (2 * 4) < 4 ∧
      ((4 : Int) : ℚ) * full_map_uv ((-9 : Int) : ℚ) 4
        = ((get_mirrored_coord (-9) 4 : Int) : ℚ)) ∧
    ((0 : Int) < 4 ∧ (4 : Int) ≤ |(6 : Int)| % (2 * 4) ∧
      ((4 : Int) : ℚ) * full_map_uv ((6 : Int) : ℚ) 4
        = ((get_mirrored_coord 6 4 + 1 : Int) : ℚ)) :=
  ⟨⟨by decide, by decide, (C13_fold_reuse_amended (-9) 4 (by decide)).1 (by decide)⟩,
    ⟨by decide, by decide, (C13_fold_reuse_amended 6 4 (by decide)).2 (by decide)⟩⟩


/-! ## Claim C14: the flat 3×3 chunk -/

/-- C14 as stated fails: for the flat 2×2 heightmap with every byte `128`
(normalised `128/255`) and `chunkWidth = chunkHeight = 3`, the normal
`generate_normals` returns for vertex 9, in the last row, has the
up-component NaN, not `1`. -/
theorem C14_flat_chunk_counterexample :
    ∃ nm vs ns, generate_noise_map (some ⟨2, 2, [128, 128, 128, 128]⟩) 3 3 0 0 = some nm ∧
      generate_vertices 3 3 nm = some vs ∧
      generate_normals_ieee glm_normalize (generate_indices 3 3) vs = some ns ∧
      ns[3 * 9 + 1]? = some FloatX.nan ∧ ns[3 * 9 + 1]? ≠ some (FloatX.fin 1) := by
  obtain ⟨vs, hvs, _, hns⟩ :=
    generate_normals_ieee_flat_3_3 ((((128 : Fin 256).val : Nat) : ℚ) / 255)
  refine ⟨_, vs, _, generate_noise_map_flat_3_3 ⟨2, 2, [128, 128, 128, 128]⟩ (by decide) 128
    (by simp) 0 0, hvs, hns, ?_, ?_⟩
  · rfl
  · simp

/-- C14 amended: with `chunkWidth = chunkHeight = 3` and a flat heightmap
(every sample the same byte `b`, hence every normalised sample `b / 255`),
generating chunk `(0, 0)` yields `3*4 = 12` vertices and `2*2*2 = 8`
triangles; `generate_normals` returns `(0, 1, 0)` for each of the 9 vertices of
rows 0–2, and NaN components for the 3 vertices of the last row, which belong
to no triangle and accumulate the zero vector. -/
theorem C14_flat_chunk_amended (hm : Heightmap) (hwf : hm.WellFormed) (b : Fin 256)
    (hflat : ∀ s ∈ hm.data, s = b) :
    ∃ nm vs ns, generate_noise_map (some hm) 3 3 0 0 = some nm ∧
      generate_vertices 3 3 nm = some vs ∧ vs.length = 5 * 12 ∧
      (generate_indices 3 3).length = 3 * 8 ∧
      (∀ (normalize : Vec3 → Vec3) (rand : Nat → Nat) (plants : List plant) (calls : Nat),
        ∃ chunk, generate_map_chunk normalize rand (some hm) 3 3 0 0 plants calls
            = some chunk ∧ chunk.vertices = vs ∧ chunk.indices = generate_indices 3 3) ∧
      generate_normals_ieee glm_normalize (generate_indices 3 3) vs = some ns ∧
      ns.length = 3 * 12 ∧
      (∀ i, i < 9 → ns[3 * i]? = some (FloatX.fin 0) ∧ ns[3 * i + 1]? = some (FloatX.fin 1) ∧
        ns[3 * i + 2]? = some (FloatX.fin 0)) ∧
      (∀ i, 9 ≤ i → i < 12 → ns[3 * i]? = some FloatX.nan ∧
        ns[3 * i + 1]? = some FloatX.nan ∧ ns[3 * i + 2]? = some FloatX.nan) := by
  obtain ⟨vs, hvs, hlen, hns⟩ := generate_normals_ieee_flat_3_3 (((b.val : Nat) : ℚ) / 255)
  have hnm := generate_noise_map_flat_3_3 hm hwf b hflat 0 0
  refine ⟨_, vs, _, hnm, hvs, hlen, by rw [generate_indices_3_3]; rfl, ?_, hns, by simp, ?_, ?_⟩
  · intro normalize rand plants calls
    obtain ⟨nq, hnq, hnqlen⟩ := generate_normals_spec normalize 3 3 _ vs (by simp) hvs
    obtain ⟨st, hst, _⟩ := generate_biome_some rand vs nq plants calls 0 0 (3 * (3 + 1))
      (by omega) hnqlen
    refine ⟨⟨generate_indices 3 3, vs, nq, st.colors, st.plants, st.calls⟩, ?_, rfl, rfl⟩
    unfold generate_map_chunk
    simp only [hnm, hvs, hnq, hst, Option.bind_eq_bind, Option.some_bind, Option.pure_def]
  · intro i hi
    interval_cases i <;> simp
  · intro i h9 h12
    interval_cases i <;> simp

/-- C14 amended on the flat 2×2 heightmap with every byte `127`. -/
theorem C14_flat_chunk_amended_witness :
    (⟨2, 2, [127, 127, 127, 127]⟩ : Heightmap).WellFormed ∧
    (∀ s ∈ (⟨2, 2, [127, 127, 127, 127]⟩ : Heightmap).data, s = 127) ∧
    ∃ nm vs ns, generate_noise_map (some ⟨2, 2, [127, 127, 127, 127]⟩) 3 3 0 0 = some nm ∧
      generate_vertices 3 3 nm = some vs ∧ vs.length = 5 * 12 ∧
      (generate_indices 3 3).length = 3 * 8 ∧
      (∀ (normalize : Vec3 → Vec3) (rand : Nat → Nat) (plants : List plant) (calls : Nat),
        ∃ chunk, generate_map_chunk normalize rand (some ⟨2, 2, [127, 127, 127, 127]⟩) 3 3 0 0
            plants calls = some chunk ∧ chunk.vertices = vs ∧
          chunk.indices = generate_indices 3 3) ∧
      generate_normals_ieee glm_normalize (generate_indices 3 3) vs = some ns ∧
      ns.length = 3 * 12 ∧
      (∀ i, i < 9 → ns[3 * i]? = some (FloatX.fin 0) ∧ ns[3 * i + 1]? = some (FloatX.fin 1) ∧
        ns[3 * i + 2]? = some (FloatX.fin 0)) ∧
      (∀ i, 9 ≤ i → i < 12 → ns[3 * i]? = some FloatX.nan ∧
        ns[3 * i + 1]? = some FloatX.nan ∧ ns[3 * i + 2]? = some FloatX.nan) :=
  ⟨by decide, by simp,
    C14_flat_chunk_amended ⟨2, 2, [127, 127, 127, 127]⟩ (by decide) 127 (by simp)⟩

/-! ## Claims C15 – C17: renderer and input -/

/-- C15: with the compiled-in configuration, for every camera position whose
x (resp. z) lies in the rendered extent `[-63.5, -63.5 + 126*20]`, the chunk
coordinate `gridPosX` (resp. `gridPosY`) that `render` computes lies in
`[0, xMapChunks)` (resp. `[0, yMapChunks)`). -/
theorem C15_grid_pos_in_grid (camX camZ : ℚ)
    (hx0 : (-63.5 : ℚ) ≤ camX) (hx1 : camX ≤ -63.5 + 126 * 20)
    (hz0 : (-63.5 : ℚ) ≤ camZ) (hz1 : camZ ≤ -63.5 + 126 * 20) :
    (0 ≤ gridPosX compiled_config camX ∧
      gridPosX compiled_config camX < compiled_config.xMapChunks) ∧
    (0 ≤ gridPosY compiled_config camZ ∧
      gridPosY compiled_config camZ < compiled_config.yMapChunks) := by
  unfold gridPosX gridPosY
  rw [originX_compiled, originY_compiled]
  exact ⟨grid_pos_range camX hx0 hx1, grid_pos_range camZ hz0 hz1⟩

/-- C15 at the camera position `(0, 2456.5)`. -/
theorem C15_grid_pos_in_grid_witness :
    ((-63.5 : ℚ) ≤ 0 ∧ (0 : ℚ) ≤ -63.5 + 126 * 20 ∧
      (-63.5 : ℚ) ≤ 2456.5 ∧ (2456.5 : ℚ) ≤ -63.5 + 126 * 20) ∧
    ((0 ≤ gridPosX compiled_config 0 ∧
      gridPosX compiled_config 0 < compiled_config.xMapChunks) ∧
    (0 ≤ gridPosY compiled_config 2456.5 ∧
      gridPosY compiled_config 2456.5 < compiled_config.yMapChunks)) :=
  ⟨⟨by norm_num, by norm_num, by norm_num, by norm_num⟩,
    C15_grid_pos_in_grid 0 2456.5 (by norm_num) (by norm_num) (by norm_num) (by norm_num)⟩

/-- C16: the full-map toggle is edge-triggered. From the initial state
`(false, false)` and after any sequence `pre` of frames, `showFullMap` flips
on the next frame exactly when M is pressed on it and was not pressed on the
previous frame; and when M was not pressed on the previous frame, holding it
for `n + 1` further frames leaves the overlay toggled exactly once. -/
theorem C16_toggle_edge_triggered (pre : List Bool) (p : Bool) (n : Nat) :
    ((processInput_M (run_frames ⟨false, false⟩ pre) p).showFullMap
        ≠ (run_frames ⟨false, false⟩ pre).showFullMap ↔
      (p = true ∧ pre.getLast?.getD false = false)) ∧
    (pre.getLast?.getD false = false →
      (run_frames ⟨false, false⟩ (pre ++ List.replicate (n + 1) true)).showFullMap
        = !(run_frames ⟨false, false⟩ pre).showFullMap) := by
  have hm := mKeyPressed_after ⟨false, false⟩ pre
  constructor
  · unfold processInput_M
    rw [hm]
    cases p <;> cases pre.getLast?.getD false <;> simp
  · intro hprev
    have happ : run_frames ⟨false, false⟩ (pre ++ List.replicate (n + 1) true)
        = run_frames (run_frames ⟨false, false⟩ pre) (List.replicate (n + 1) true) := by
      unfold run_frames
      rw [List.foldl_append]
    rw [happ, run_frames_hold _ (by rw [hm]; exact hprev) n]

/-- C16 after the frames `[true, true, false]`, pressing M and holding it for
three more frames. -/
theorem C16_toggle_edge_triggered_witness :
    ([true, true, false] : List Bool).getLast?.getD false = false ∧
    (((processInput_M (run_frames ⟨false, false⟩ [true, true, false]) true).showFullMap
        ≠ (run_frames ⟨false, false⟩ [true, true, false]).showFullMap ↔
      (true = true ∧ ([true, true, false] : List Bool).getLast?.getD false = false)) ∧
    (([true, true, false] : List Bool).getLast?.getD false = false →
      (run_frames ⟨false, false⟩ ([true, true, false] ++ List.replicate (2 + 1) true)).showFullMap
        = !(run_frames ⟨false, false⟩ [true, true, false]).showFullMap)) :=
  ⟨by decide, C16_toggle_edge_triggered [true, true, false] true 2⟩

/-- C17 at the compiled-in chunk dimensions: `main` sets
`nIndices = 127 * 127 * 6 = 96774`, while `generate_indices` puts
`126 * 126 * 6 = 95256` indices in the chunk's index buffer. -/
theorem C17_index_count_mismatch :
    nIndices 127 127 = 96774 ∧
    ((generate_indices 127 127).length : Int) = 95256 ∧
    nIndices 127 127 ≠ ((generate_indices 127 127).length : Int) := by
  have h : (generate_indices 127 127).length = 95256 := by
    rw [generate_indices_length]
  have hn : nIndices 127 127 = 96774 := by decide
  refine ⟨hn, by rw [h]; rfl, ?_⟩
  rw [h, hn]
  decide


/-! ## Claim C18: index bounds -/

/-- C18: for all chunk dimensions (in particular `chunkWidth ≥ 1`,
`chunkHeight ≥ 1`) every index produced by `generate_indices` is non-negative
and strictly less than the vertex count `chunkWidth * (chunkHeight + 1)`, and
on every vertex buffer of that many vertices `generate_normals` returns: no
vertex read and no normal accumulation is out of bounds. -/
theorem C18_indices_in_bounds (chunkWidth chunkHeight : Nat) :
    (∀ i ∈ generate_indices chunkWidth chunkHeight,
      0 ≤ i ∧ i < (chunkWidth : Int) * ((chunkHeight : Int) + 1)) ∧
    (∀ (normalize : Vec3 → Vec3) (vertices : List ℚ),
      vertices.length = 5 * (chunkWidth * (chunkHeight + 1)) →
      ∃ ns, generate_normals normalize (generate_indices chunkWidth chunkHeight) vertices
          = some ns ∧ ns.length = 3 * (chunkWidth * (chunkHeight + 1))) := by
  constructor
  · intro i hi
    have h := mem_generate_indices chunkWidth chunkHeight i hi
    push_cast at h
    exact h
  · intro normalize vertices hlen
    exact generate_normals_in_bounds normalize chunkWidth chunkHeight vertices hlen

/-- C18 for 3×3 chunks with a vertex buffer of twelve vertices. -/
theorem C18_indices_in_bounds_witness :
    (∀ i ∈ generate_indices 3 3,
      0 ≤ i ∧ i < ((3 : Nat) : Int) * (((3 : Nat) : Int) + 1)) ∧
    (∃ ns, generate_normals (fun v => v) (generate_indices 3 3) (List.replicate 60 0)
        = some ns ∧ ns.length = 3 * (3 * (3 + 1))) :=
  ⟨(C18_indices_in_bounds 3 3).1,
    (C18_indices_in_bounds 3 3).2 (fun v => v) (List.replicate 60 0) (by decide)⟩

/-! ## Claim C19: the camera's chunk -/

/-- C19 at the camera position `x = 0`, inside the rendered extent: `render`
computes `gridPosX = 1`, while the chunk whose drawn extent contains the
camera is chunk `0` and no other. -/
theorem C19_camera_chunk_mismatch :
    ((-63.5 : ℚ) ≤ 0 ∧ (0 : ℚ) ≤ -63.5 + 126 * 20) ∧
    gridPosX compiled_config 0 = 1 ∧
    in_drawn_extent_x compiled_config 0 0 ∧
    (∀ x : Int, in_drawn_extent_x compiled_config x 0 → x = 0) ∧
    ¬ in_drawn_extent_x compiled_config (gridPosX compiled_config 0) 0 := by
  have huniq : ∀ x : Int, in_drawn_extent_x compiled_config x 0 → x = 0 := by
    intro x hx
    unfold in_drawn_extent_x chunk_translate_x compiled_config at hx
    simp only at hx
    obtain ⟨h1, h2⟩ := hx
    push_cast at h1 h2
    have a : ((252 * x : Int) : ℚ) ≤ ((127 : Int) : ℚ) := by push_cast; linarith
    have b : ((-125 : Int) : ℚ) ≤ ((252 * x : Int) : ℚ) := by push_cast; linarith
    have a' : 252 * x ≤ 127 := by exact_mod_cast a
    have b' : -125 ≤ 252 * x := by exact_mod_cast b
    omega
  refine ⟨⟨by norm_num, by norm_num⟩, gridPosX_at_zero, ?_, huniq, ?_⟩
  · unfold in_drawn_extent_x chunk_translate_x compiled_config
    norm_num
  · intro h
    have := huniq _ h
    rw [gridPosX_at_zero] at this
    exact absurd this (by decide)

end Terrain
